import Mathlib

/-!
Verification of the Bitcoin-node repository (`TP - Bitcoin Node`) against its
natural-language specification.  The Rust sources are shallowly embedded:
bytes are `Nat` (values `< 256` on every wire path), byte streams are
`List Nat`, fallible parsers are explicit `Except` values, and machine
integers are `Nat` carrying the two's-complement bit pattern, reduced
`% 2^w` exactly where the Rust code truncates.
-/

set_option maxRecDepth 20000

/-- Error enumeration of `messages/message_error.rs` (the constructors shared
by the `bitcoin` and `node` crates). -/
inductive MessageError where
  | ReadFromBytes
  | InvalidInputPing
  | InvalidInputAddr
  | InvalidInputGetData
  | InvalidInputHeaders
  | InvalidInputInv
  | InvalidInputPong
  | InvalidInputVersion
  | InvalidBlockCommitment
  deriving DecidableEq, Repr

/-- Little-endian bytes of a `u16` bit pattern (`u16::to_le_bytes`). -/
def u16LE (n : Nat) : List Nat :=
  [n % 256, n / 256 % 256]

/-- Little-endian bytes of a `u32`/`i32` bit pattern (`to_le_bytes`). -/
def u32LE (n : Nat) : List Nat :=
  [n % 256, n / 256 % 256, n / 65536 % 256, n / 16777216 % 256]

/-- Little-endian bytes of a `u64`/`i64` bit pattern (`to_le_bytes`). -/
def u64LE (n : Nat) : List Nat :=
  [n % 256, n / 256 % 256, n / 65536 % 256, n / 16777216 % 256,
   n / 4294967296 % 256, n / 1099511627776 % 256,
   n / 281474976710656 % 256, n / 72057594037927936 % 256]

/-- Reader for one byte (`read_u8_from_bytes`): fails with `ReadFromBytes`
on an exhausted stream. -/
def readU8 : List Nat → Except MessageError (Nat × List Nat)
  | [] => .error .ReadFromBytes
  | b :: r => .ok (b, r)

/-- Reader for a `u16` little-endian (`read_u16_from_bytes` with
`little_endian = true`). -/
def readU16LE : List Nat → Except MessageError (Nat × List Nat)
  | b0 :: b1 :: r => .ok (b0 + 256 * b1, r)
  | _ => .error .ReadFromBytes

/-- Reader for a `u32`/`i32` little-endian bit pattern
(`read_u32_from_bytes` / `read_i32_from_bytes`). -/
def readU32LE : List Nat → Except MessageError (Nat × List Nat)
  | b0 :: b1 :: b2 :: b3 :: r =>
      .ok (b0 + 256 * b1 + 65536 * b2 + 16777216 * b3, r)
  | _ => .error .ReadFromBytes

/-- Reader for a `u64`/`i64` little-endian bit pattern
(`read_u64_from_bytes` / `read_i64_from_bytes`). -/
def readU64LE : List Nat → Except MessageError (Nat × List Nat)
  | b0 :: b1 :: b2 :: b3 :: b4 :: b5 :: b6 :: b7 :: r =>
      .ok (b0 + 256 * b1 + 65536 * b2 + 16777216 * b3 + 4294967296 * b4
            + 1099511627776 * b5 + 281474976710656 * b6
            + 72057594037927936 * b7, r)
  | _ => .error .ReadFromBytes

/-- Reader for a fixed number of raw bytes (`read_vec_from_bytes`). -/
def readVecN : Nat → List Nat → Except MessageError (List Nat × List Nat)
  | 0, s => .ok ([], s)
  | _ + 1, [] => .error .ReadFromBytes
  | n + 1, b :: s =>
      match readVecN n s with
      | .ok (l, r) => .ok (b :: l, r)
      | .error e => .error e

theorem readU8_append (b : Nat) (r : List Nat) :
    readU8 (b :: r) = .ok (b, r) := rfl

theorem readU16LE_u16LE (v : Nat) (r : List Nat) (h : v < 65536) :
    readU16LE (u16LE v ++ r) = .ok (v, r) := by
  simp [u16LE, readU16LE]
  omega

theorem readU32LE_u32LE (v : Nat) (r : List Nat) (h : v < 4294967296) :
    readU32LE (u32LE v ++ r) = .ok (v, r) := by
  simp [u32LE, readU32LE]
  omega

theorem readU64LE_u64LE (v : Nat) (r : List Nat) (h : v < 18446744073709551616) :
    readU64LE (u64LE v ++ r) = .ok (v, r) := by
  simp [u64LE, readU64LE]
  omega

theorem readVecN_append (l r : List Nat) :
    readVecN l.length (l ++ r) = .ok (l, r) := by
  induction l with
  | nil => rfl
  | cons b t ih => simp [readVecN, ih]

/-! ### SHA-256, executable

The Rust code hashes through the `bitcoin_hashes` crate (`sha256`,
`sha256d`).  We embed the full FIPS-180 SHA-256 so that every hash the
theorems mention is a concrete computable value. -/

/-- Round constants of SHA-256 (the 64 words `K₀…K₆₃` of FIPS-180,
written in decimal). -/
def shaK : List Nat :=
  [1116352408, 1899447441, 3049323471, 3921009573, 961987163,
   1508970993, 2453635748, 2870763221, 3624381080, 310598401,
   607225278, 1426881987, 1925078388, 2162078206, 2614888103,
   3248222580, 3835390401, 4022224774, 264347078, 604807628,
   770255983, 1249150122, 1555081692, 1996064986, 2554220882,
   2821834349, 2952996808, 3210313671, 3336571891, 3584528711,
   113926993, 338241895, 666307205, 773529912, 1294757372,
   1396182291, 1695183700, 1986661051, 2177026350, 2456956037,
   2730485921, 2820302411, 3259730800, 3345764771, 3516065817,
   3600352804, 4094571909, 275423344, 430227734, 506948616,
   659060556, 883997877, 958139571, 1322822218, 1537002063,
   1747873779, 1955562222, 2024104815, 2227730452, 2361852424,
   2428436474, 2756734187, 3204031479, 3329325298]

/-- Initial hash state of SHA-256 (`H₀…H₇`, decimal). -/
def shaH0 : List Nat :=
  [1779033703, 3144134277, 1013904242, 2773480762,
   1359893119, 2600822924, 528734635, 1541459225]

/-- Right rotation of a 32-bit word. -/
def rotr32 (n x : Nat) : Nat :=
  ((x >>> n) ||| (x <<< (32 - n))) &&& 0xffffffff

def shaBigSigma0 (x : Nat) : Nat := rotr32 2 x ^^^ rotr32 13 x ^^^ rotr32 22 x

def shaBigSigma1 (x : Nat) : Nat := rotr32 6 x ^^^ rotr32 11 x ^^^ rotr32 25 x

def shaSmallSigma0 (x : Nat) : Nat := rotr32 7 x ^^^ rotr32 18 x ^^^ (x >>> 3)

def shaSmallSigma1 (x : Nat) : Nat := rotr32 17 x ^^^ rotr32 19 x ^^^ (x >>> 10)

/-- Big-endian packing of bytes into 32-bit words. -/
def bytesToWords32BE : List Nat → List Nat
  | b0 :: b1 :: b2 :: b3 :: r =>
      ((b0 <<< 24) ||| (b1 <<< 16) ||| (b2 <<< 8) ||| b3) :: bytesToWords32BE r
  | _ => []

/-- Message-schedule extension: appends `n` further words. -/
def shaExtendLoop : List Nat → Nat → List Nat
  | w, 0 => w
  | w, n + 1 =>
      shaExtendLoop
        (w ++ [(shaSmallSigma1 (w.getD (w.length - 2) 0)
                + w.getD (w.length - 7) 0
                + shaSmallSigma0 (w.getD (w.length - 15) 0)
                + w.getD (w.length - 16) 0) % 4294967296]) n

/-- One SHA-256 round on the state `[a,b,c,d,e,f,g,h]`. -/
def shaRound (st : List Nat) (kw : Nat × Nat) : List Nat :=
  let a := st.getD 0 0
  let b := st.getD 1 0
  let c := st.getD 2 0
  let d := st.getD 3 0
  let e := st.getD 4 0
  let f := st.getD 5 0
  let g := st.getD 6 0
  let h := st.getD 7 0
  let ch := (e &&& f) ^^^ ((0xffffffff ^^^ e) &&& g)
  let maj := (a &&& b) ^^^ (a &&& c) ^^^ (b &&& c)
  let t1 := (h + shaBigSigma1 e + ch + kw.1 + kw.2) % 4294967296
  let t2 := (shaBigSigma0 a + maj) % 4294967296
  [(t1 + t2) % 4294967296, a, b, c, (d + t1) % 4294967296, e, f, g]

/-- Compression of one 64-byte block into the running state. -/
def shaCompressBlock (h : List Nat) (block : List Nat) : List Nat :=
  let w := shaExtendLoop (bytesToWords32BE block) 48
  let st := (shaK.zip w).foldl shaRound h
  List.zipWith (fun x y => (x + y) % 4294967296) h st

/-- Big-endian bytes of a `u64` (length field of the SHA-256 padding). -/
def u64BE (n : Nat) : List Nat :=
  [n / 72057594037927936 % 256, n / 281474976710656 % 256,
   n / 1099511627776 % 256, n / 4294967296 % 256,
   n / 16777216 % 256, n / 65536 % 256, n / 256 % 256, n % 256]

/-- FIPS-180 padding: `0x80`, zeros to 56 mod 64, 8-byte bit length. -/
def sha256Pad (msg : List Nat) : List Nat :=
  let L := msg.length
  msg ++ [0x80] ++ List.replicate ((55 + 64 - L % 64) % 64) 0 ++ u64BE (8 * L)

/-- Folds the compression over consecutive 64-byte blocks; the first
argument is structural fuel, always supplied large enough (one unit per
remaining byte suffices since every step consumes 64 bytes or ends). -/
def sha256Blocks : Nat → List Nat → List Nat → List Nat
  | 0, h, _ => h
  | _ + 1, h, [] => h
  | n + 1, h, s => sha256Blocks n (shaCompressBlock h (s.take 64)) (s.drop 64)

/-- Big-endian serialization of the word state into bytes. -/
def words32ToBytesBE (ws : List Nat) : List Nat :=
  ws.flatMap (fun w =>
    [w / 16777216 % 256, w / 65536 % 256, w / 256 % 256, w % 256])

/-- SHA-256 of a byte string. -/
def sha256 (msg : List Nat) : List Nat :=
  let padded := sha256Pad msg
  words32ToBytesBE (sha256Blocks padded.length shaH0 padded)

/-- Double SHA-256 (`sha256d::Hash::hash`). -/
def sha256d (msg : List Nat) : List Nat :=
  sha256 (sha256 msg)

example : sha256 [] =
    [0xe3, 0xb0, 0xc4, 0x42, 0x98, 0xfc, 0x1c, 0x14, 0x9a, 0xfb, 0xf4, 0xc8,
     0x99, 0x6f, 0xb9, 0x24, 0x27, 0xae, 0x41, 0xe4, 0x64, 0x9b, 0x93, 0x4c,
     0xa4, 0x95, 0x99, 0x1b, 0x78, 0x52, 0xb8, 0x55] := by decide

example : sha256 [0x61, 0x62, 0x63] =
    [0xba, 0x78, 0x16, 0xbf, 0x8f, 0x01, 0xcf, 0xea, 0x41, 0x41, 0x40, 0xde,
     0x5d, 0xae, 0x22, 0x23, 0xb0, 0x03, 0x61, 0xa3, 0x96, 0x17, 0x7a, 0x9c,
     0xb4, 0x10, 0xff, 0x61, 0xf2, 0x00, 0x15, 0xad] := by decide

/-! ### Compact-size integers (`messages/compact_size.rs`)

Constants from `message_constants.rs`: `BYTE_SIZE = 252`,
`TWO_BYTE_SIZE = 253`, `FOUR_BYTE_SIZE = 254`, `EIGHT_BYTE_SIZE = 255`. -/

/-- A `CompactSizeUInt` wraps a `u64` value. -/
structure CompactSizeUInt where
  value : Nat
  deriving DecidableEq, Repr

/-- Constructor `CompactSizeUInt::from_number`. -/
def CompactSizeUInt.fromNumber (n : Nat) : CompactSizeUInt := ⟨n⟩

/-- Parser `CompactSizeUInt::from_bytes`: a first byte `≤ 0xFC` is the value;
`0xFD`/`0xFE`/`0xFF` announce a little-endian u16/u32/u64. -/
def CompactSizeUInt.fromBytes (s : List Nat) :
    Except MessageError (CompactSizeUInt × List Nat) :=
  match readU8 s with
  | .error e => .error e
  | .ok (b, r) =>
      if b ≤ 252 then .ok (⟨b⟩, r)
      else if b = 253 then
        match readU16LE r with
        | .ok (v, r') => .ok (⟨v⟩, r')
        | .error e => .error e
      else if b = 254 then
        match readU32LE r with
        | .ok (v, r') => .ok (⟨v⟩, r')
        | .error e => .error e
      else
        match readU64LE r with
        | .ok (v, r') => .ok (⟨v⟩, r')
        | .error e => .error e

/-- Size-category selector `CompactSizeUInt::check_size`. -/
def CompactSizeUInt.checkSize (c : CompactSizeUInt) : Nat :=
  if c.value ≤ 252 then c.value
  else if 253 ≤ c.value ∧ c.value ≤ 0xffff then 253
  else if 0x10000 ≤ c.value ∧ c.value ≤ 0xffffffff then 254
  else 255

/-- Serializer `CompactSizeUInt::as_bytes`: prefix byte plus the truncated
little-endian payload the Rust casts produce. -/
def CompactSizeUInt.asBytes (c : CompactSizeUInt) : List Nat :=
  let size := c.checkSize
  size ::
    (if size = 253 then u16LE (c.value % 65536)
     else if size = 254 then u32LE (c.value % 4294967296)
     else if size = 255 then u64LE c.value
     else [])

theorem checkSize_byte {v : Nat} (h : v ≤ 252) :
    CompactSizeUInt.checkSize ⟨v⟩ = v := by
  simp only [CompactSizeUInt.checkSize]
  rw [if_pos h]

theorem checkSize_two {v : Nat} (h1 : 253 ≤ v) (h2 : v ≤ 0xffff) :
    CompactSizeUInt.checkSize ⟨v⟩ = 253 := by
  simp only [CompactSizeUInt.checkSize]
  rw [if_neg (by omega), if_pos (by exact ⟨h1, h2⟩)]

theorem checkSize_four {v : Nat} (h1 : 0x10000 ≤ v) (h2 : v ≤ 0xffffffff) :
    CompactSizeUInt.checkSize ⟨v⟩ = 254 := by
  simp only [CompactSizeUInt.checkSize]
  rw [if_neg (by omega), if_neg (by omega), if_pos (by exact ⟨h1, h2⟩)]

theorem checkSize_eight {v : Nat} (h1 : 0x100000000 ≤ v) :
    CompactSizeUInt.checkSize ⟨v⟩ = 255 := by
  simp only [CompactSizeUInt.checkSize]
  rw [if_neg (by omega), if_neg (by omega), if_neg (by omega)]

theorem asBytes_byte {v : Nat} (h : v ≤ 252) :
    CompactSizeUInt.asBytes ⟨v⟩ = [v] := by
  simp only [CompactSizeUInt.asBytes, checkSize_byte h]
  rw [if_neg (by omega), if_neg (by omega), if_neg (by omega)]

theorem asBytes_two {v : Nat} (h1 : 253 ≤ v) (h2 : v ≤ 0xffff) :
    CompactSizeUInt.asBytes ⟨v⟩ = 253 :: u16LE v := by
  have hv : v % 65536 = v := Nat.mod_eq_of_lt (by omega)
  simp only [CompactSizeUInt.asBytes, checkSize_two h1 h2]
  simp [hv]

theorem asBytes_four {v : Nat} (h1 : 0x10000 ≤ v) (h2 : v ≤ 0xffffffff) :
    CompactSizeUInt.asBytes ⟨v⟩ = 254 :: u32LE v := by
  have hv : v % 4294967296 = v := Nat.mod_eq_of_lt (by omega)
  simp only [CompactSizeUInt.asBytes, checkSize_four h1 h2]
  simp [hv]

theorem asBytes_eight {v : Nat} (h1 : 0x100000000 ≤ v) :
    CompactSizeUInt.asBytes ⟨v⟩ = 255 :: u64LE v := by
  simp only [CompactSizeUInt.asBytes, checkSize_eight h1]
  simp

theorem compactSize_roundtrip (v : Nat) (rest : List Nat)
    (h : v < 18446744073709551616) :
    CompactSizeUInt.fromBytes (CompactSizeUInt.asBytes ⟨v⟩ ++ rest) =
      .ok (⟨v⟩, rest) := by
  by_cases h1 : v ≤ 252
  · simp [asBytes_byte h1, CompactSizeUInt.fromBytes, readU8, h1]
  · by_cases h2 : v ≤ 0xffff
    · rw [asBytes_two (by omega) h2]
      simp only [List.cons_append, CompactSizeUInt.fromBytes, readU8]
      rw [readU16LE_u16LE v rest (by omega)]
      simp
    · by_cases h3 : v ≤ 0xffffffff
      · rw [asBytes_four (by omega) h3]
        simp only [List.cons_append, CompactSizeUInt.fromBytes, readU8]
        rw [readU32LE_u32LE v rest (by omega)]
        simp
      · rw [asBytes_eight (by omega)]
        simp only [List.cons_append, CompactSizeUInt.fromBytes, readU8]
        rw [readU64LE_u64LE v rest (by omega)]
        simp

theorem compactSize_short_stream (v : Nat) (h : v < 18446744073709551616)
    (k : Nat) (hk : k < (CompactSizeUInt.asBytes ⟨v⟩).length) :
    CompactSizeUInt.fromBytes ((CompactSizeUInt.asBytes ⟨v⟩).take k) =
      .error .ReadFromBytes := by
  by_cases h1 : v ≤ 252
  · rw [asBytes_byte h1] at hk ⊢
    have : k = 0 := by simp at hk; omega
    simp [this, CompactSizeUInt.fromBytes, readU8]
  · by_cases h2 : v ≤ 0xffff
    · rw [asBytes_two (by omega) h2] at hk ⊢
      simp [u16LE] at hk
      interval_cases k <;>
        simp [u16LE, CompactSizeUInt.fromBytes, readU8, readU16LE]
    · by_cases h3 : v ≤ 0xffffffff
      · rw [asBytes_four (by omega) h3] at hk ⊢
        simp [u32LE] at hk
        interval_cases k <;>
          simp [u32LE, CompactSizeUInt.fromBytes, readU8, readU32LE]
      · rw [asBytes_eight (by omega)] at hk ⊢
        simp [u64LE] at hk
        interval_cases k <;>
          simp [u64LE, CompactSizeUInt.fromBytes, readU8, readU64LE]

/-- C7: compact-size encoding uses 1/3/5/9-byte forms split at 0xFC, 0xFFFF
and 0xFFFFFFFF; every `u64` round-trips through encode-then-decode
(thresholds 252, 253 and 65536 produce the literal encodings the spec lists),
and `from_bytes` fails with `ReadFromBytes` on every stream that is a strict
byte-prefix of a valid encoding. -/
theorem c7_compact_size_encoding_roundtrip :
    (∀ v : Nat, v ≤ 0xFC → CompactSizeUInt.asBytes ⟨v⟩ = [v]) ∧
    (∀ v : Nat, 0xFC < v → v ≤ 0xFFFF →
      CompactSizeUInt.asBytes ⟨v⟩ = 0xFD :: u16LE v) ∧
    (∀ v : Nat, 0xFFFF < v → v ≤ 0xFFFFFFFF →
      CompactSizeUInt.asBytes ⟨v⟩ = 0xFE :: u32LE v) ∧
    (∀ v : Nat, 0xFFFFFFFF < v → v < 18446744073709551616 →
      CompactSizeUInt.asBytes ⟨v⟩ = 0xFF :: u64LE v) ∧
    CompactSizeUInt.asBytes ⟨252⟩ = [0xFC] ∧
    CompactSizeUInt.asBytes ⟨253⟩ = [0xFD, 0xFD, 0x00] ∧
    CompactSizeUInt.asBytes ⟨65536⟩ = [0xFE, 0x00, 0x00, 0x01, 0x00] ∧
    (∀ (v : Nat) (rest : List Nat), v < 18446744073709551616 →
      CompactSizeUInt.fromBytes (CompactSizeUInt.asBytes ⟨v⟩ ++ rest) =
        .ok (⟨v⟩, rest)) ∧
    (∀ (v k : Nat), v < 18446744073709551616 →
      k < (CompactSizeUInt.asBytes ⟨v⟩).length →
      CompactSizeUInt.fromBytes ((CompactSizeUInt.asBytes ⟨v⟩).take k) =
        .error .ReadFromBytes) := by
  refine ⟨fun v hv => asBytes_byte hv,
    fun v h1 h2 => asBytes_two (by omega) h2,
    fun v h1 h2 => asBytes_four (by omega) h2,
    fun v h1 _ => asBytes_eight (by omega),
    by decide, by decide, by decide,
    fun v rest hv => compactSize_roundtrip v rest hv,
    fun v k hv hk => compactSize_short_stream v hv k hk⟩

/-- C7 witness: the theorem instantiated at concrete inputs, discharging
each hypothesis: value 300 round-trips and its 1-byte prefix fails. -/
theorem c7_compact_size_encoding_roundtrip_witness :
    CompactSizeUInt.asBytes ⟨300⟩ = 0xFD :: u16LE 300 ∧
    CompactSizeUInt.fromBytes (CompactSizeUInt.asBytes ⟨300⟩ ++ [7]) =
      .ok (⟨300⟩, [7]) ∧
    CompactSizeUInt.fromBytes ((CompactSizeUInt.asBytes ⟨300⟩).take 1) =
      .error .ReadFromBytes :=
  ⟨(c7_compact_size_encoding_roundtrip.2.1) 300 (by decide) (by decide),
   (c7_compact_size_encoding_roundtrip.2.2.2.2.2.2.2.1) 300 [7] (by decide),
   (c7_compact_size_encoding_roundtrip.2.2.2.2.2.2.2.2) 300 1 (by decide)
     (by decide)⟩

/-! ### Transactions (`node/src/block_mod/{outpoint,tx_in,tx_out,witness,transaction}.rs`)

The `node` crate's `outpoint.rs` is not present in the snapshot; the
`Outpoint` embedding follows the identical `bitcoin/src/block_mod/outpoint.rs`
which is. -/

/-- An `Outpoint` references a previous transaction output. -/
structure Outpoint where
  tx_id : List Nat
  index : Nat
  deriving DecidableEq, Repr

/-- Serializer `Outpoint::as_bytes`. -/
def Outpoint.asBytes (o : Outpoint) : List Nat :=
  o.tx_id ++ u32LE o.index

/-- Parser `Outpoint::from_bytes`: 32-byte id then u32 LE index. -/
def Outpoint.fromBytes (s : List Nat) :
    Except MessageError (Outpoint × List Nat) :=
  match readVecN 32 s with
  | .error e => .error e
  | .ok (tx_id, r) =>
      match readU32LE r with
      | .error e => .error e
      | .ok (index, r') => .ok (⟨tx_id, index⟩, r')

/-- A transaction input. -/
structure TxIn where
  previous_output : Outpoint
  script_bytes : CompactSizeUInt
  script : List Nat
  sequence : Nat
  deriving DecidableEq, Repr

/-- Serializer `TxIn::as_bytes`. -/
def TxIn.asBytes (t : TxIn) : List Nat :=
  t.previous_output.asBytes ++ t.script_bytes.asBytes ++ t.script
    ++ u32LE t.sequence

/-- Parser `TxIn::from_bytes`. -/
def TxIn.fromBytes (s : List Nat) : Except MessageError (TxIn × List Nat) :=
  match Outpoint.fromBytes s with
  | .error e => .error e
  | .ok (o, r) =>
      match CompactSizeUInt.fromBytes r with
      | .error e => .error e
      | .ok (c, r') =>
          match readVecN c.value r' with
          | .error e => .error e
          | .ok (sc, r'') =>
              match readU32LE r'' with
              | .error e => .error e
              | .ok (seqn, r3) => .ok (⟨o, c, sc, seqn⟩, r3)

/-- A transaction output; `value` holds the `i64` amount's bit pattern. -/
structure TxOut where
  value : Nat
  pk_script_bytes : CompactSizeUInt
  pk_script : List Nat
  deriving DecidableEq, Repr

/-- Serializer `TxOut::as_bytes`. -/
def TxOut.asBytes (t : TxOut) : List Nat :=
  u64LE t.value ++ t.pk_script_bytes.asBytes ++ t.pk_script

/-- Parser `TxOut::from_bytes`. -/
def TxOut.fromBytes (s : List Nat) : Except MessageError (TxOut × List Nat) :=
  match readU64LE s with
  | .error e => .error e
  | .ok (v, r) =>
      match CompactSizeUInt.fromBytes r with
      | .error e => .error e
      | .ok (c, r') =>
          match readVecN c.value r' with
          | .error e => .error e
          | .ok (pk, r'') => .ok (⟨v, c, pk⟩, r'')

/-- A per-input witness stack. -/
structure Witness where
  stack_item_count : CompactSizeUInt
  stack_items : List (List Nat)
  deriving DecidableEq, Repr

/-- Serializer for one witness stack item: compact length then raw bytes. -/
def witnessItemBytes (item : List Nat) : List Nat :=
  (CompactSizeUInt.fromNumber item.length).asBytes ++ item

/-- Serializer `Witness::as_bytes`. -/
def Witness.asBytes (w : Witness) : List Nat :=
  w.stack_item_count.asBytes ++ w.stack_items.flatMap witnessItemBytes

/-- Parser for one witness stack item. -/
def witnessItemFromBytes (s : List Nat) :
    Except MessageError (List Nat × List Nat) :=
  match CompactSizeUInt.fromBytes s with
  | .error e => .error e
  | .ok (c, r) => readVecN c.value r

/-- Generic `for _ in 0..n` parsing loop collecting `n` items. -/
def parseN {α : Type} (p : List Nat → Except MessageError (α × List Nat)) :
    Nat → List Nat → Except MessageError (List α × List Nat)
  | 0, s => .ok ([], s)
  | n + 1, s =>
      match p s with
      | .error e => .error e
      | .ok (a, r) =>
          match parseN p n r with
          | .error e => .error e
          | .ok (l, r') => .ok (a :: l, r')

/-- Parser `Witness::from_bytes`. -/
def Witness.fromBytes (s : List Nat) :
    Except MessageError (Witness × List Nat) :=
  match CompactSizeUInt.fromBytes s with
  | .error e => .error e
  | .ok (c, r) =>
      match parseN witnessItemFromBytes c.value r with
      | .error e => .error e
      | .ok (items, r') => .ok (⟨c, items⟩, r')

/-- A transaction; `version` and `lock_time` hold `i32`/`u32` bit patterns. -/
structure Transaction where
  version : Nat
  flag : Nat
  tx_in_count : CompactSizeUInt
  tx_in_list : List TxIn
  tx_out_count : CompactSizeUInt
  tx_out_list : List TxOut
  witness : List Witness
  lock_time : Nat
  deriving DecidableEq, Repr

/-- Predicate `Transaction::is_segwit`: the flag byte is non-zero. -/
def Transaction.isSegwit (t : Transaction) : Bool :=
  t.flag != 0

/-- Serializer `Transaction::as_bytes(segwit)`: marker/flag and witness
sections appear only when `segwit && is_segwit()`. -/
def Transaction.asBytes (t : Transaction) (segwit : Bool) : List Nat :=
  u32LE t.version
    ++ (if segwit && t.isSegwit then [0x00, t.flag] else [])
    ++ t.tx_in_count.asBytes
    ++ t.tx_in_list.flatMap TxIn.asBytes
    ++ t.tx_out_count.asBytes
    ++ t.tx_out_list.flatMap TxOut.asBytes
    ++ (if segwit && t.isSegwit then t.witness.flatMap Witness.asBytes else [])
    ++ u32LE t.lock_time

/-- Txid/wtxid `Transaction::get_id(segwit)`: `sha256d` of the chosen
serialization. -/
def Transaction.getId (t : Transaction) (segwit : Bool) : List Nat :=
  sha256d (t.asBytes segwit)

/-- Parser `Transaction::from_bytes`: a zero input-count is the segwit
marker, in which case the flag byte and the real input count follow, and
one witness per input is read after the outputs. -/
def Transaction.fromBytes (s : List Nat) :
    Except MessageError (Transaction × List Nat) :=
  match readU32LE s with
  | .error e => .error e
  | .ok (version, r0) =>
      match CompactSizeUInt.fromBytes r0 with
      | .error e => .error e
      | .ok (c1, r1) =>
          let isSw := c1.value == 0
          let flagCount : Except MessageError
              ((Nat × CompactSizeUInt) × List Nat) :=
            if isSw then
              match readU8 r1 with
              | .error e => .error e
              | .ok (f, r2) =>
                  match CompactSizeUInt.fromBytes r2 with
                  | .error e => .error e
                  | .ok (c2, r3) => .ok ((f, c2), r3)
            else .ok ((0, c1), r1)
          match flagCount with
          | .error e => .error e
          | .ok ((flag, txInCount), r4) =>
              match parseN TxIn.fromBytes txInCount.value r4 with
              | .error e => .error e
              | .ok (ins, r5) =>
                  match CompactSizeUInt.fromBytes r5 with
                  | .error e => .error e
                  | .ok (txOutCount, r6) =>
                      match parseN TxOut.fromBytes txOutCount.value r6 with
                      | .error e => .error e
                      | .ok (outs, r7) =>
                          match (if isSw then
                                   parseN Witness.fromBytes txInCount.value r7
                                 else .ok ([], r7)) with
                          | .error e => .error e
                          | .ok (wits, r8) =>
                              match readU32LE r8 with
                              | .error e => .error e
                              | .ok (lock, r9) =>
                                  .ok (⟨version, flag, txInCount, ins,
                                        txOutCount, outs, wits, lock⟩, r9)

/-- Well-formedness of a `TxIn`: the invariants the Rust types and
constructors (`TxIn::new`, `TxIn::from_bytes`, `set_signature`) maintain. -/
def TxIn.wellFormed (t : TxIn) : Prop :=
  t.previous_output.tx_id.length = 32 ∧
  t.previous_output.index < 4294967296 ∧
  t.script_bytes.value = t.script.length ∧
  t.script.length < 18446744073709551616 ∧
  t.sequence < 4294967296

/-- Well-formedness of a `TxOut`. -/
def TxOut.wellFormed (t : TxOut) : Prop :=
  t.value < 18446744073709551616 ∧
  t.pk_script_bytes.value = t.pk_script.length ∧
  t.pk_script.length < 18446744073709551616

/-- Well-formedness of a `Witness`. -/
def Witness.wellFormed (w : Witness) : Prop :=
  w.stack_item_count.value = w.stack_items.length ∧
  w.stack_items.length < 18446744073709551616 ∧
  ∀ i ∈ w.stack_items, i.length < 18446744073709551616

/-- Well-formedness of a `Transaction`: counts match list lengths, machine
integers are in range, a legacy (flag 0) transaction has at least one input
(otherwise its serialization would decode as segwit) and carries no witness
data, and a segwit transaction has one witness stack per input. -/
def Transaction.wellFormed (t : Transaction) : Prop :=
  t.version < 4294967296 ∧
  t.lock_time < 4294967296 ∧
  t.flag < 256 ∧
  t.tx_in_count.value = t.tx_in_list.length ∧
  t.tx_in_list.length < 18446744073709551616 ∧
  t.tx_out_count.value = t.tx_out_list.length ∧
  t.tx_out_list.length < 18446744073709551616 ∧
  (∀ x ∈ t.tx_in_list, x.wellFormed) ∧
  (∀ x ∈ t.tx_out_list, x.wellFormed) ∧
  (t.flag = 0 → t.witness = [] ∧ t.tx_in_list ≠ []) ∧
  (t.flag ≠ 0 → t.witness.length = t.tx_in_list.length ∧
    ∀ w ∈ t.witness, w.wellFormed)

instance (t : TxIn) : Decidable t.wellFormed := by
  unfold TxIn.wellFormed
  infer_instance

instance (t : TxOut) : Decidable t.wellFormed := by
  unfold TxOut.wellFormed
  infer_instance

instance (w : Witness) : Decidable w.wellFormed := by
  unfold Witness.wellFormed
  infer_instance

instance (t : Transaction) : Decidable t.wellFormed := by
  unfold Transaction.wellFormed
  infer_instance

theorem parseN_flatMap {α : Type}
    (p : List Nat → Except MessageError (α × List Nat)) (enc : α → List Nat)
    (l : List α) (h : ∀ a ∈ l, ∀ r, p (enc a ++ r) = .ok (a, r))
    (r : List Nat) :
    parseN p l.length (l.flatMap enc ++ r) = .ok (l, r) := by
  induction l with
  | nil => rfl
  | cons a t ih =>
      have ha := h a (by simp) (t.flatMap enc ++ r)
      simp only [List.flatMap_cons, List.length_cons, List.append_assoc,
        parseN, ha]
      rw [ih (fun x hx r' => h x (by simp [hx]) r')]

theorem outpoint_roundtrip (o : Outpoint) (h32 : o.tx_id.length = 32)
    (hi : o.index < 4294967296) (r : List Nat) :
    Outpoint.fromBytes (o.asBytes ++ r) = .ok (o, r) := by
  have h1 : readVecN 32 (o.tx_id ++ (u32LE o.index ++ r)) =
      .ok (o.tx_id, u32LE o.index ++ r) := by
    rw [← h32]
    exact readVecN_append _ _
  simp only [Outpoint.asBytes, List.append_assoc, Outpoint.fromBytes, h1,
    readU32LE_u32LE o.index r hi]

theorem compactSize_roundtrip' (c : CompactSizeUInt)
    (h : c.value < 18446744073709551616) (rest : List Nat) :
    CompactSizeUInt.fromBytes (c.asBytes ++ rest) = .ok (c, rest) := by
  cases c with
  | mk v => exact compactSize_roundtrip v rest h

theorem txIn_roundtrip (t : TxIn) (h : t.wellFormed) (r : List Nat) :
    TxIn.fromBytes (t.asBytes ++ r) = .ok (t, r) := by
  obtain ⟨h32, hi, hsb, hsl, hsq⟩ := h
  have hrv : readVecN t.script_bytes.value
      (t.script ++ (u32LE t.sequence ++ r)) =
      .ok (t.script, u32LE t.sequence ++ r) := by
    rw [hsb]
    exact readVecN_append _ _
  simp only [TxIn.asBytes, List.append_assoc, TxIn.fromBytes,
    outpoint_roundtrip t.previous_output h32 hi,
    compactSize_roundtrip' t.script_bytes (by omega), hrv,
    readU32LE_u32LE t.sequence r hsq]

theorem txOut_roundtrip (t : TxOut) (h : t.wellFormed) (r : List Nat) :
    TxOut.fromBytes (t.asBytes ++ r) = .ok (t, r) := by
  obtain ⟨hv, hpb, hpl⟩ := h
  have hrv : readVecN t.pk_script_bytes.value (t.pk_script ++ r) =
      .ok (t.pk_script, r) := by
    rw [hpb]
    exact readVecN_append _ _
  simp only [TxOut.asBytes, List.append_assoc, TxOut.fromBytes,
    readU64LE_u64LE t.value _ hv,
    compactSize_roundtrip' t.pk_script_bytes (by omega), hrv]

theorem witnessItem_roundtrip (i : List Nat)
    (h : i.length < 18446744073709551616) (r : List Nat) :
    witnessItemFromBytes (witnessItemBytes i ++ r) = .ok (i, r) := by
  simp only [witnessItemBytes, CompactSizeUInt.fromNumber, List.append_assoc,
    witnessItemFromBytes, compactSize_roundtrip i.length (i ++ r) h]
  exact readVecN_append i r

theorem witness_roundtrip (w : Witness) (h : w.wellFormed) (r : List Nat) :
    Witness.fromBytes (w.asBytes ++ r) = .ok (w, r) := by
  obtain ⟨hc, hl, hi⟩ := h
  have hp : parseN witnessItemFromBytes w.stack_item_count.value
      (w.stack_items.flatMap witnessItemBytes ++ r) = .ok (w.stack_items, r) := by
    rw [hc]
    exact parseN_flatMap _ _ _ (fun a ha r' => witnessItem_roundtrip a (hi a ha) r') r
  simp only [Witness.asBytes, List.append_assoc, Witness.fromBytes,
    compactSize_roundtrip' w.stack_item_count (by omega), hp]

theorem transaction_roundtrip (t : Transaction) (h : t.wellFormed)
    (r : List Nat) :
    Transaction.fromBytes (t.asBytes t.isSegwit ++ r) = .ok (t, r) := by
  obtain ⟨h1, h2, h3, h4, h5, h6, h7, h8, h9, h10, h11⟩ := h
  have hins : ∀ r', parseN TxIn.fromBytes t.tx_in_count.value
      (t.tx_in_list.flatMap TxIn.asBytes ++ r') = .ok (t.tx_in_list, r') := by
    intro r'
    rw [h4]
    exact parseN_flatMap _ _ _ (fun a ha r'' => txIn_roundtrip a (h8 a ha) r'') r'
  have houts : ∀ r', parseN TxOut.fromBytes t.tx_out_count.value
      (t.tx_out_list.flatMap TxOut.asBytes ++ r') = .ok (t.tx_out_list, r') := by
    intro r'
    rw [h6]
    exact parseN_flatMap _ _ _ (fun a ha r'' => txOut_roundtrip a (h9 a ha) r'') r'
  by_cases hf : t.flag = 0
  · obtain ⟨hwit, hne⟩ := h10 hf
    have hseg : t.isSegwit = false := by simp [Transaction.isSegwit, hf]
    have hsw : (t.tx_in_count.value == 0) = false := by
      rw [h4]
      simp [List.length_eq_zero]
      exact hne
    simp only [Transaction.asBytes, hseg, Bool.and_false, if_neg,
      Bool.false_eq_true, not_false_iff, ite_false, List.nil_append,
      List.append_assoc, Transaction.fromBytes,
      readU32LE_u32LE t.version _ h1,
      compactSize_roundtrip' t.tx_in_count (by omega), hsw, hins,
      compactSize_roundtrip' t.tx_out_count (by omega), houts,
      readU32LE_u32LE t.lock_time r h2]
    rw [← hf, ← hwit]
  · obtain ⟨hwlen, hwf⟩ := h11 hf
    have hwits : ∀ r', parseN Witness.fromBytes t.tx_in_count.value
        (t.witness.flatMap Witness.asBytes ++ r') = .ok (t.witness, r') := by
      intro r'
      rw [h4, ← hwlen]
      exact parseN_flatMap _ _ _
        (fun a ha r'' => witness_roundtrip a (hwf a ha) r'') r'
    have hseg : t.isSegwit = true := by simp [Transaction.isSegwit, hf]
    have hmarker : ∀ r', CompactSizeUInt.fromBytes (0x00 :: r') =
        .ok (⟨0⟩, r') := by
      intro r'
      simp [CompactSizeUInt.fromBytes, readU8]
    simp only [Transaction.asBytes, hseg, Bool.and_true, if_pos,
      List.append_assoc, List.cons_append, List.nil_append,
      Transaction.fromBytes, readU32LE_u32LE t.version _ h1, hmarker,
      readU8, compactSize_roundtrip' t.tx_in_count (by omega), hins,
      compactSize_roundtrip' t.tx_out_count (by omega), houts, hwits,
      readU32LE_u32LE t.lock_time r h2]
    simp only [beq_self_eq_true, if_true, ite_true, eq_self_iff_true,
      List.cons_append, hins, houts, hwits,
      compactSize_roundtrip' t.tx_out_count (by omega),
      readU32LE_u32LE t.lock_time r h2]

/-- C2: for every well-formed transaction, decoding the bytes produced by
encoding it with its own segwit status yields an equal transaction (with any
trailing stream preserved), and the txid `sha256d(as_bytes(false))` is
independent of the witness data: mutating the witness field arbitrarily
leaves `get_id(false)` unchanged. -/
theorem c2_transaction_roundtrip_txid_stable (t : Transaction)
    (r : List Nat) (h : t.wellFormed) :
    Transaction.fromBytes (t.asBytes t.isSegwit ++ r) = .ok (t, r) ∧
    ∀ w : List Witness,
      Transaction.getId { t with witness := w } false = t.getId false := by
  refine ⟨transaction_roundtrip t h r, fun w => ?_⟩
  rfl

/-- Concrete legacy transaction used to witness C2. -/
def txC2 : Transaction :=
  { version := 1
    flag := 0
    tx_in_count := ⟨1⟩
    tx_in_list := [⟨⟨List.replicate 32 0x11, 0⟩, ⟨0⟩, [], 4294967295⟩]
    tx_out_count := ⟨1⟩
    tx_out_list := [⟨100, ⟨2⟩, [0xaa, 0xbb]⟩]
    witness := []
    lock_time := 0 }

/-- C2 witness: the round-trip and txid stability instantiated on a concrete
well-formed transaction, every hypothesis discharged by `decide`. -/
theorem c2_transaction_roundtrip_txid_stable_witness :
    Transaction.fromBytes (txC2.asBytes txC2.isSegwit ++ []) =
      .ok (txC2, []) ∧
    Transaction.getId { txC2 with witness := [⟨⟨1⟩, [[0xcc]]⟩] } false =
      txC2.getId false :=
  ⟨(c2_transaction_roundtrip_txid_stable txC2 [] (by decide)).1,
   (c2_transaction_roundtrip_txid_stable txC2 [] (by decide)).2 [⟨⟨1⟩, [[0xcc]]⟩]⟩

/-! ### BIP-143 P2WPKH signature hash (`node/src/block_mod/transaction.rs`) -/

/-- Default `TxIn` used for out-of-range indexing in the model; the Rust
source panics on an out-of-range index, and every theorem below quantifies
only over in-range indices. -/
def defaultTxIn : TxIn := ⟨⟨[], 0⟩, ⟨0⟩, [], 0⟩

/-- Helper `get_script_code`: `0x19 0x76 0xa9 0x14 || pubkey-hash || 0x88 0xac`. -/
def get_script_code (pubkey_hash : List Nat) : List Nat :=
  [0x19, 0x76, 0xa9, 0x14] ++ pubkey_hash ++ [0x88, 0xac]

/-- Embedding of `Transaction::p2wpkh_signature_hash`: the per-input loop
accumulating all previous outpoints and sequences is the `foldl` over the
input list, and the final digest is a single SHA-256.  Note the literal
`[0xff, 0xff, 0xff, 0xff]` the source appends where BIP-143 places the
input's sequence. -/
def Transaction.p2wpkhSignatureHash (t : Transaction) (index : Nat)
    (pk_script : List Nat) (amount_list : List Nat) : List Nat :=
  let previous_outpoints :=
    t.tx_in_list.foldl (fun acc txin => acc ++ txin.previous_output.asBytes) []
  let previous_sequences :=
    t.tx_in_list.foldl (fun acc txin => acc ++ u32LE txin.sequence) []
  let outputs :=
    t.tx_out_list.foldl (fun acc txout => acc ++ txout.asBytes) []
  let signature := u32LE t.version
    ++ sha256d previous_outpoints
    ++ sha256d previous_sequences
    ++ (t.tx_in_list.getD index defaultTxIn).previous_output.asBytes
    ++ get_script_code (pk_script.drop 2)
    ++ u64LE (amount_list.getD index 0)
    ++ [0xff, 0xff, 0xff, 0xff]
    ++ sha256d outputs
    ++ u32LE t.lock_time
    ++ u32LE 1
  sha256 signature

/-- The signature-hash formula exactly as the specification words it:
`version(4) || sha256d(all outpoints) || sha256d(all sequences) ||
outpoint(i) || scriptCode(pk_script[2..]) || amount(i)(8) || sequence(i)(4)
|| sha256d(all outputs) || lock_time(4) || SIGHASH_ALL(4)`, single SHA-256,
with `scriptCode = 0x1976a914 || pubkey-hash || 0x88ac`. -/
def specBip143SigHash (t : Transaction) (index : Nat)
    (pk_script : List Nat) (amount_list : List Nat) : List Nat :=
  sha256 (u32LE t.version
    ++ sha256d (t.tx_in_list.flatMap (fun txin => txin.previous_output.asBytes))
    ++ sha256d (t.tx_in_list.flatMap (fun txin => u32LE txin.sequence))
    ++ (t.tx_in_list.getD index defaultTxIn).previous_output.asBytes
    ++ ([0x19, 0x76, 0xa9, 0x14] ++ pk_script.drop 2 ++ [0x88, 0xac])
    ++ u64LE (amount_list.getD index 0)
    ++ u32LE ((t.tx_in_list.getD index defaultTxIn).sequence)
    ++ sha256d (t.tx_out_list.flatMap TxOut.asBytes)
    ++ u32LE t.lock_time
    ++ u32LE 1)

/-- The same specification formula with the single amendment the code
forces: the four bytes at the `sequence(i)` position are the fixed
`0xffffffff`, not the input's sequence. -/
def specBip143SigHashFixedSeq (t : Transaction) (index : Nat)
    (pk_script : List Nat) (amount_list : List Nat) : List Nat :=
  sha256 (u32LE t.version
    ++ sha256d (t.tx_in_list.flatMap (fun txin => txin.previous_output.asBytes))
    ++ sha256d (t.tx_in_list.flatMap (fun txin => u32LE txin.sequence))
    ++ (t.tx_in_list.getD index defaultTxIn).previous_output.asBytes
    ++ ([0x19, 0x76, 0xa9, 0x14] ++ pk_script.drop 2 ++ [0x88, 0xac])
    ++ u64LE (amount_list.getD index 0)
    ++ [0xff, 0xff, 0xff, 0xff]
    ++ sha256d (t.tx_out_list.flatMap TxOut.asBytes)
    ++ u32LE t.lock_time
    ++ u32LE 1)

theorem foldl_append_eq_flatMap {α : Type} (f : α → List Nat) (l : List α) :
    l.foldl (fun acc x => acc ++ f x) [] = l.flatMap f := by
  suffices h : ∀ acc, l.foldl (fun acc x => acc ++ f x) acc = acc ++ l.flatMap f by
    simpa using h []
  induction l with
  | nil => simp
  | cons a t ih => intro acc; simp [ih, List.append_assoc]

/-- Concrete single-input transaction whose input sequence is zero; used to
separate the code's hash from the specification's formula. -/
def txC5 : Transaction :=
  { version := 1
    flag := 1
    tx_in_count := ⟨1⟩
    tx_in_list := [⟨⟨List.replicate 32 0x22, 1⟩, ⟨0⟩, [], 0⟩]
    tx_out_count := ⟨1⟩
    tx_out_list := [⟨90000, ⟨22⟩, 0x00 :: 0x14 :: List.replicate 20 0x33⟩]
    witness := [⟨⟨2⟩, [[0x01], [0x02]]⟩]
    lock_time := 0 }

/-- Previous pk_script for the C5 instances (a P2WPKH script `0x0014 || hash`). -/
def pkScriptC5 : List Nat := 0x00 :: 0x14 :: List.replicate 20 0x44

set_option maxHeartbeats 2000000 in
/-- C5 counterexample: at a transaction whose input 0 has sequence 0, the
code's `p2wpkh_signature_hash` differs from the specification's formula
(which places `sequence(i)` where the code writes `0xffffffff`). -/
theorem c5_p2wpkh_sighash_counterexample :
    Transaction.p2wpkhSignatureHash txC5 0 pkScriptC5 [625000000] ≠
      specBip143SigHash txC5 0 pkScriptC5 [625000000] := by
  decide

/-- C5 (amended): for every transaction, in-range input index, pk_script and
amount list, the code's `p2wpkh_signature_hash` equals the single SHA-256 of
`version || sha256d(outpoints) || sha256d(sequences) || outpoint(i) ||
scriptCode(pk_script[2..]) || amount(i) || 0xffffffff || sha256d(outputs) ||
lock_time || SIGHASH_ALL`, i.e. the specification formula with the fixed
bytes `0xffffffff` in place of `sequence(i)`. -/
theorem c5_p2wpkh_sighash_formula (t : Transaction) (index : Nat)
    (pk_script : List Nat) (amount_list : List Nat)
    (_hi : index < t.tx_in_list.length) (_ha : index < amount_list.length) :
    Transaction.p2wpkhSignatureHash t index pk_script amount_list =
      specBip143SigHashFixedSeq t index pk_script amount_list := by
  simp only [Transaction.p2wpkhSignatureHash, specBip143SigHashFixedSeq,
    foldl_append_eq_flatMap, get_script_code, List.append_assoc]

/-- C5 witness: the amended formula instantiated at the concrete transaction
and index 0, hypotheses discharged by `decide`. -/
theorem c5_p2wpkh_sighash_formula_witness :
    Transaction.p2wpkhSignatureHash txC5 0 pkScriptC5 [625000000] =
      specBip143SigHashFixedSeq txC5 0 pkScriptC5 [625000000] :=
  c5_p2wpkh_sighash_formula txC5 0 pkScriptC5 [625000000] (by decide) (by decide)

/-! ### Blocks (`{bitcoin,node}/src/block_mod/block.rs`, `coinbase.rs`,
`tx_in_coinbase.rs`, `block_header.rs`, `messages/script.rs`) -/

/-- Variable-length number of `bitcoin/src/messages/script.rs` (used as the
embedded block-height script of a coinbase input): a count byte followed by
that many little-endian digit bytes. -/
structure Script where
  number : Nat
  bytes : Nat
  read_bytes : List Nat
  deriving DecidableEq, Repr

/-- Little-endian value of a digit-byte list (the `256^i * byte_i` sum the
parsing loop accumulates). -/
def leNumber : List Nat → Nat
  | [] => 0
  | b :: t => b + 256 * leNumber t

/-- Parser `Script::from_bytes`. -/
def Script.fromBytes (s : List Nat) : Except MessageError (Script × List Nat) :=
  match readU8 s with
  | .error e => .error e
  | .ok (b, r) =>
      match readVecN b r with
      | .error e => .error e
      | .ok (rb, r') => .ok (⟨leNumber rb, b, rb⟩, r')

/-- Byte count `Script::cant_bytes` (`self.bytes + 1` as a wrapping `u8`). -/
def Script.cantBytes (sc : Script) : Nat :=
  (sc.bytes + 1) % 256

/-- Serializer `Script::as_bytes`. -/
def Script.asBytes (sc : Script) : List Nat :=
  sc.bytes :: sc.read_bytes

/-- A coinbase transaction input (`tx_in_coinbase.rs`). -/
structure TxInCoinbase where
  hash : List Nat
  index : Nat
  script_bytes : CompactSizeUInt
  height : Script
  coinbase_script : List Nat
  sequence : Nat
  deriving DecidableEq, Repr

/-- Default coinbase input used to model the Rust panic on indexing an
empty input list; never reached from parsed blocks. -/
def defaultTxInCoinbase : TxInCoinbase := ⟨[], 0, ⟨0⟩, ⟨0, 0, []⟩, [], 0⟩

/-- Parser `TxInCoinbase::from_bytes`; the remaining script length is the
wrapping `u64` difference `script_bytes - cant_bytes` the Rust computes. -/
def TxInCoinbase.fromBytes (s : List Nat) :
    Except MessageError (TxInCoinbase × List Nat) :=
  match readVecN 32 s with
  | .error e => .error e
  | .ok (hash, r0) =>
      match readU32LE r0 with
      | .error e => .error e
      | .ok (index, r1) =>
          match CompactSizeUInt.fromBytes r1 with
          | .error e => .error e
          | .ok (sb, r2) =>
              match Script.fromBytes r2 with
              | .error e => .error e
              | .ok (height, r3) =>
                  match readVecN
                      ((sb.value + 18446744073709551616 - height.cantBytes) %
                        18446744073709551616) r3 with
                  | .error e => .error e
                  | .ok (cs, r4) =>
                      match readU32LE r4 with
                      | .error e => .error e
                      | .ok (seqn, r5) =>
                          .ok (⟨hash, index, sb, height, cs, seqn⟩, r5)

/-- Serializer `TxInCoinbase::to_bytes`. -/
def TxInCoinbase.toBytes (t : TxInCoinbase) : List Nat :=
  t.hash ++ u32LE t.index ++ t.script_bytes.asBytes ++ t.height.asBytes
    ++ t.coinbase_script ++ u32LE t.sequence

/-- Accessor `TxInCoinbase::script` (the witness-reserved value the
commitment check reads). -/
def TxInCoinbase.script (t : TxInCoinbase) : List Nat :=
  t.coinbase_script

/-- Predicate `Witness::is_empty` (`bitcoin` crate): an empty stack, or one
whose every byte is zero. -/
def Witness.isEmpty (w : Witness) : Bool :=
  if w.stack_item_count.value == 0 then true
  else w.stack_items.all (fun item => item.all (fun b => b == 0))

/-- A coinbase transaction (`coinbase.rs`, identical in both crates). -/
structure Coinbase where
  version : Nat
  flag : Nat
  tx_in_count : CompactSizeUInt
  tx_in_list : List TxInCoinbase
  tx_out_count : CompactSizeUInt
  tx_out_list : List TxOut
  witness : List Witness
  lock_time : Nat
  deriving DecidableEq, Repr

/-- Parser `Coinbase::from_bytes` (same segwit detection as transactions). -/
def Coinbase.fromBytes (s : List Nat) :
    Except MessageError (Coinbase × List Nat) :=
  match readU32LE s with
  | .error e => .error e
  | .ok (version, r0) =>
      match CompactSizeUInt.fromBytes r0 with
      | .error e => .error e
      | .ok (c1, r1) =>
          let isSw := c1.value == 0
          let flagCount : Except MessageError
              ((Nat × CompactSizeUInt) × List Nat) :=
            if isSw then
              match readU8 r1 with
              | .error e => .error e
              | .ok (f, r2) =>
                  match CompactSizeUInt.fromBytes r2 with
                  | .error e => .error e
                  | .ok (c2, r3) => .ok ((f, c2), r3)
            else .ok ((0, c1), r1)
          match flagCount with
          | .error e => .error e
          | .ok ((flag, txInCount), r4) =>
              match parseN TxInCoinbase.fromBytes txInCount.value r4 with
              | .error e => .error e
              | .ok (ins, r5) =>
                  match CompactSizeUInt.fromBytes r5 with
                  | .error e => .error e
                  | .ok (txOutCount, r6) =>
                      match parseN TxOut.fromBytes txOutCount.value r6 with
                      | .error e => .error e
                      | .ok (outs, r7) =>
                          match (if isSw then
                                   parseN Witness.fromBytes txInCount.value r7
                                 else .ok ([], r7)) with
                          | .error e => .error e
                          | .ok (wits, r8) =>
                              match readU32LE r8 with
                              | .error e => .error e
                              | .ok (lock, r9) =>
                                  .ok (⟨version, flag, txInCount, ins,
                                        txOutCount, outs, wits, lock⟩, r9)

/-- Serializer `Coinbase::as_bytes`: always the legacy layout, with no
marker, flag or witness section. -/
def Coinbase.asBytes (cb : Coinbase) : List Nat :=
  u32LE cb.version ++ cb.tx_in_count.asBytes
    ++ cb.tx_in_list.flatMap TxInCoinbase.toBytes
    ++ cb.tx_out_count.asBytes ++ cb.tx_out_list.flatMap TxOut.asBytes
    ++ u32LE cb.lock_time

/-- Coinbase txid `Coinbase::get_id`. -/
def Coinbase.getId (cb : Coinbase) : List Nat :=
  sha256d cb.asBytes

/-- Predicate `Coinbase::has_witnesses`. -/
def Coinbase.hasWitnesses (cb : Coinbase) : Bool :=
  cb.witness.any (fun w => !w.isEmpty)

/-- Commitment check `Coinbase::is_commitment_valid`: some output script of
declared length at least 38 starts with `6a 24 aa 21 a9 ed` and carries
`sha256d(witness_root || witness_reserved_value)` at bytes 6..38. -/
def Coinbase.isCommitmentValid (cb : Coinbase) (witness_root_hash : List Nat) :
    Bool :=
  let wrv := (cb.tx_in_list.getD 0 defaultTxInCoinbase).script
  let commitment_hash := sha256d (witness_root_hash ++ wrv)
  cb.tx_out_list.any (fun txo =>
    decide (38 ≤ txo.pk_script_bytes.value) &&
    (txo.pk_script.take 6 == [0x6a, 0x24, 0xaa, 0x21, 0xa9, 0xed]) &&
    ((txo.pk_script.drop 6).take 32 == commitment_hash))

/-- A block header (`block_header.rs`); integers hold wire bit patterns. -/
structure BlockHeader where
  block_version : Nat
  previous_block_header_hash : List Nat
  merkle_root_hash : List Nat
  time : Nat
  nbits : Nat
  nonce : Nat
  deriving DecidableEq, Repr

/-- Parser `BlockHeader::from_bytes` (80 wire bytes). -/
def BlockHeader.fromBytes (s : List Nat) :
    Except MessageError (BlockHeader × List Nat) :=
  match readU32LE s with
  | .error e => .error e
  | .ok (version, r0) =>
      match readVecN 32 r0 with
      | .error e => .error e
      | .ok (prev, r1) =>
          match readVecN 32 r1 with
          | .error e => .error e
          | .ok (mr, r2) =>
              match readU32LE r2 with
              | .error e => .error e
              | .ok (time, r3) =>
                  match readU32LE r3 with
                  | .error e => .error e
                  | .ok (nbits, r4) =>
                      match readU32LE r4 with
                      | .error e => .error e
                      | .ok (nonce, r5) =>
                          .ok (⟨version, prev, mr, time, nbits, nonce⟩, r5)

/-- Serializer `BlockHeader::to_bytes`. -/
def BlockHeader.toBytes (h : BlockHeader) : List Nat :=
  u32LE h.block_version ++ h.previous_block_header_hash ++ h.merkle_root_hash
    ++ u32LE h.time ++ u32LE h.nbits ++ u32LE h.nonce

/-- Header hash `BlockHeader::get_header`. -/
def BlockHeader.getHeader (h : BlockHeader) : List Nat :=
  sha256d h.toBytes

/-- Accessor `BlockHeader::get_time`. -/
def BlockHeader.getTime (h : BlockHeader) : Nat :=
  h.time

/-- Odd-length padding step of `calculate_merkle_root`: duplicate the last
element when the level has odd length. -/
def padIfOdd (l : List (List Nat)) : List (List Nat) :=
  if l.length % 2 = 1 then l ++ [(l.getLast?).getD []] else l

/-- Pairing step of `calculate_merkle_root`: hash consecutive pairs with
`sha256d(left || right)`. -/
def hashPairs : List (List Nat) → List (List Nat)
  | a :: b :: rest => sha256d (a ++ b) :: hashPairs rest
  | _ => []

/-- Fuel-indexed Merkle-root recursion; the fuel only bounds the recursion
depth and `l.length` units always suffice (each level at least halves).
The Rust recursion has no base case for an empty list (it would panic);
the model returns `[]` there, a case no caller reaches since the txid list
always starts with the coinbase id. -/
def merkleRootFuel : Nat → List (List Nat) → List Nat
  | _, [x] => x
  | 0, _ => []
  | n + 1, l => merkleRootFuel n (hashPairs (padIfOdd l))

/-- Merkle root `calculate_merkle_root` (`block.rs`, single-list variant):
pad an odd level by duplicating its last element, pairwise `sha256d`, up to
a single root. -/
def calculate_merkle_root (l : List (List Nat)) : List Nat :=
  merkleRootFuel l.length l

/-- A block: header, declared count, coinbase, non-coinbase transactions. -/
structure Block where
  block_header : BlockHeader
  txn_count : CompactSizeUInt
  coinbase : Coinbase
  txn_list : List Transaction
  deriving DecidableEq, Repr

/-- Ordered txid list `Block::get_txn_ids`: the coinbase id first, then the
txid (`get_id(false)`) of each non-coinbase transaction in block order. -/
def Block.getTxnIds (b : Block) : List (List Nat) :=
  b.coinbase.getId :: b.txn_list.map (fun t => t.getId false)

/-- Accessor `Block::get_txn_list` (the non-coinbase transactions). -/
def Block.getTxnList (b : Block) : List Transaction :=
  b.txn_list

/-- Merkle check `Block::proof_of_inclusion`: the header root equals the
recomputed Merkle root over the ordered txids. -/
def Block.proofOfInclusion (b : Block) : Bool :=
  b.block_header.merkle_root_hash == calculate_merkle_root b.getTxnIds

/-- Witness-commitment check `Block::is_commitment_valid` (`bitcoin` crate):
vacuous without coinbase witnesses, else the witness Merkle root over the
33-zero-byte leaf (as the literal in the source) and the wtxids of the
segwit transactions, committed in a coinbase output. -/
def Block.isCommitmentValid (b : Block) : Bool :=
  if !b.coinbase.hasWitnesses then true
  else
    let buffer := List.replicate 33 0 ::
      (b.txn_list.filter (fun t => t.isSegwit)).map (fun t => t.getId true)
    let witness_root_hash := calculate_merkle_root buffer
    b.coinbase.isCommitmentValid witness_root_hash

/-- Shared parsing pipeline of `Block::from_bytes`: header, compact count,
coinbase, then `count - 1` (wrapping `u64` subtraction) transactions. -/
def parseBlockStruct (s : List Nat) : Except MessageError (Block × List Nat) :=
  match BlockHeader.fromBytes s with
  | .error e => .error e
  | .ok (hdr, r0) =>
      match CompactSizeUInt.fromBytes r0 with
      | .error e => .error e
      | .ok (cnt, r1) =>
          match Coinbase.fromBytes r1 with
          | .error e => .error e
          | .ok (cb, r2) =>
              match parseN Transaction.fromBytes
                  ((cnt.value + 18446744073709551616 - 1) %
                    18446744073709551616) r2 with
              | .error e => .error e
              | .ok (txs, r3) => .ok (⟨hdr, cnt, cb, txs⟩, r3)

/-- Parser `Block::from_bytes` of the `node` crate: no validation at all. -/
def nodeBlock_fromBytes (s : List Nat) :
    Except MessageError (Block × List Nat) :=
  parseBlockStruct s

/-- Outcome of a Rust function that may also terminate the process. -/
inductive RustExit (α : Type) where
  | ok (a : α)
  | err (e : MessageError)
  | exited
  deriving DecidableEq, Repr

/-- Parser `Block::from_bytes` of the `bitcoin` crate: after parsing, a
failed `proof_of_inclusion` yields `InvalidBlockCommitment`; a failed
witness-commitment check runs `exit(-1)`. -/
def bitcoinBlock_fromBytes (s : List Nat) : RustExit (Block × List Nat) :=
  match parseBlockStruct s with
  | .error e => .err e
  | .ok (b, r) =>
      if !b.proofOfInclusion then .err .InvalidBlockCommitment
      else if !b.isCommitmentValid then .exited
      else .ok (b, r)

/-- C3 (amended, `bitcoin` crate): whenever the parsing pipeline succeeds
but the header's Merkle root differs from the root recomputed over the
ordered txids (coinbase id first, duplicate-last padding, pairwise
`sha256d`), `Block::from_bytes` fails with `InvalidBlockCommitment`. -/
theorem c3_bitcoin_parse_rejects_merkle_mismatch (s : List Nat) (b : Block)
    (r : List Nat) (hp : parseBlockStruct s = .ok (b, r))
    (hm : b.block_header.merkle_root_hash ≠ calculate_merkle_root b.getTxnIds) :
    bitcoinBlock_fromBytes s = .err .InvalidBlockCommitment := by
  have hpoi : b.proofOfInclusion = false := by
    simp [Block.proofOfInclusion]
    exact hm
  simp [bitcoinBlock_fromBytes, hp, hpoi]

/-- Concrete 1-transaction block stream whose header Merkle root (32 zero
bytes) differs from the recomputed root (the coinbase txid). -/
def c3Stream : List Nat :=
  u32LE 1 ++ List.replicate 32 0 ++ List.replicate 32 0 ++ u32LE 0 ++ u32LE 0
    ++ u32LE 0 ++ [1]
    ++ (u32LE 1 ++ [1]
        ++ (List.replicate 32 0 ++ u32LE 4294967295 ++ [1] ++ [0]
            ++ u32LE 4294967295)
        ++ [1] ++ (u64LE 50 ++ [0]) ++ u32LE 0)

/-- The value `parseBlockStruct` produces on `c3Stream`. -/
def c3BlockVal : Block :=
  { block_header := ⟨1, List.replicate 32 0, List.replicate 32 0, 0, 0, 0⟩
    txn_count := ⟨1⟩
    coinbase :=
      ⟨1, 0, ⟨1⟩,
        [⟨List.replicate 32 0, 4294967295, ⟨1⟩, ⟨0, 0, []⟩, [], 4294967295⟩],
        ⟨1⟩, [⟨50, ⟨0⟩, []⟩], [], 0⟩
    txn_list := [] }

/-- The block the `node` crate's `Block::from_bytes` returns on `c3Stream`,
or `none` if parsing fails. -/
def c3Parsed : Option Block :=
  match nodeBlock_fromBytes c3Stream with
  | .ok (b, _) => some b
  | .error _ => none

/-- C3 counterexample: the `node` crate's `Block::from_bytes` (also cited by
the claim) accepts `c3Stream` although the header Merkle root differs from
the recomputation — parsing does not fail with `InvalidBlockCommitment`. -/
theorem c3_node_parse_accepts_merkle_mismatch :
    c3Parsed.map Block.proofOfInclusion = some false := by
  decide

/-- C3 witness: the amended theorem applied to the concrete mismatching
stream, both hypotheses discharged by `decide`. -/
theorem c3_bitcoin_parse_rejects_merkle_mismatch_witness :
    bitcoinBlock_fromBytes c3Stream = .err .InvalidBlockCommitment :=
  c3_bitcoin_parse_rejects_merkle_mismatch c3Stream c3BlockVal [] (by rfl)
    (by decide)

/-! ### Proof of inclusion (`bitcoin/src/proof_of_inclusion_mod/proof_of_inclusion.rs`) -/

/-- Hash of two Merkle children, `compute_hash`: `sha256d(left || right)`. -/
def compute_hash (left_child right_child : List Nat) : List Nat :=
  sha256d (left_child ++ right_child)

/-- Fuel-indexed embedding of the two-argument `calculate_merkle_root`
(which also pushes every newly built level): returns the root together with
the list of levels pushed, each level recorded before its own padding, as
in the source (`levels.push(new_level.clone())` precedes the recursive call
that pads it).  `l.length` fuel always suffices. -/
def merkleLevelsFuel : Nat → List (List Nat) → (List Nat × List (List (List Nat)))
  | _, [x] => (x, [])
  | 0, _ => ([], [])
  | n + 1, l =>
      let nl := hashPairs (padIfOdd l)
      let p := merkleLevelsFuel n nl
      (p.1, nl :: p.2)

/-- Path set `txid_path`: one node hash per level, halving the index. -/
def txidPath : List (List (List Nat)) → Nat → List (List Nat)
  | [], _ => []
  | lvl :: rest, idx => lvl.getD idx [] :: txidPath rest (idx / 2)

/-- A `merkleblock` message (`node/src/wallet_utils/merkle_block.rs`); the
fixed command-name field is omitted. -/
structure MerkleBlock where
  merkle_root : List Nat
  hash_count : CompactSizeUInt
  hashes : List (List Nat)
  flag_byte_count : CompactSizeUInt
  flags : List Nat
  deriving DecidableEq, Repr

/-- Constructor `MerkleBlock::new`. -/
def MerkleBlock.new (hashes : List (List Nat)) (flags : List Nat)
    (merkle_root : List Nat) : MerkleBlock :=
  ⟨merkle_root, ⟨hashes.length⟩, hashes, ⟨flags.length⟩, flags⟩

/-- Descent loop of `calculate_merkle_proof`, iterating the level index
from `levels.len() - 1` down to `1`.  `none` models the Rust
index-out-of-bounds panic at `levels[i-1][index*2 + 1]` (and `[index*2]`):
intermediate levels are stored unpadded, so these accesses can fall outside
an odd-length level.  At level 1 the two final flags `0, 0` and both leaves
are emitted; above it, a right child on the path contributes flag `0` and
the left sibling, otherwise the right sibling is deferred to `aux`. -/
def calcProofGo (levels : List (List (List Nat))) (path : List (List Nat)) :
    Nat → Nat → List Nat → List (List Nat) → List (List Nat) →
    Option (List (List Nat) × List Nat × List (List Nat))
  | 0, _, flags, hashes, aux => some (hashes, flags, aux)
  | 1, index, flags, hashes, aux =>
      match (levels.getD 0 []).get? (index * 2),
            (levels.getD 0 []).get? (index * 2 + 1) with
      | some left, some right =>
          some (hashes ++ [left, right], flags ++ [1, 0, 0], aux)
      | _, _ => none
  | i + 2, index, flags, hashes, aux =>
      let lvlBelow := levels.getD (i + 1) []
      match lvlBelow.get? (index * 2 + 1) with
      | none => none
      | some right =>
          if path.contains right then
            match lvlBelow.get? (index * 2) with
            | none => none
            | some left =>
                calcProofGo levels path (i + 1) (index * 2 + 1)
                  (flags ++ [1, 0]) (hashes ++ [left]) aux
          else
            calcProofGo levels path (i + 1) (index * 2)
              (flags ++ [1]) hashes (aux ++ [right])

/-- Proof builder `calculate_merkle_proof`: runs the descent and appends the
reversed `aux` list to the provided hashes; `none` is the Rust panic. -/
def calculate_merkle_proof (levels : List (List (List Nat)))
    (path : List (List Nat)) (merkle_root : List Nat) : Option MerkleBlock :=
  match calcProofGo levels path (levels.length - 1) 0 [] [] [] with
  | none => none
  | some (hashes, flags, aux) =>
      some (MerkleBlock.new (hashes ++ aux.reverse) flags merkle_root)

/-- Outcome of the proof-construction path of `send_proof`. -/
inductive ProofOutcome where
  | notFound
  | panicked
  | proof (mb : MerkleBlock)
  deriving DecidableEq, Repr

/-- Core of `send_proof` after the block lookup: locate the target txid,
pad the txid list, build all Merkle levels (level 0 is the padded list),
compute the path and emit the proof.  `notFound` is the `not_found` reply;
`panicked` is a thread-killing index panic inside the proof builder. -/
def sendProofCore (txids : List (List Nat)) (txn : List Nat) : ProofOutcome :=
  match txids.indexOf? txn with
  | none => .notFound
  | some i =>
      let padded := padIfOdd txids
      let built := merkleLevelsFuel padded.length padded
      let levels := padded :: built.2
      let merkle_root := built.1
      match calculate_merkle_proof levels (txidPath levels i) merkle_root with
      | none => .panicked
      | some mb => .proof mb

/-- C1 (failing input of the code bug): a block with five transactions,
txids `t1..t5`, proving inclusion of the fifth (leaf index 4).  The descent
reaches level 1, which holds three unpadded hashes, and reads index 3 —
out of bounds, so `send_proof` panics instead of emitting a proof that
verifies against the root. -/
theorem c1_send_proof_panics_on_five_txids :
    sendProofCore
      [List.replicate 32 1, List.replicate 32 2, List.replicate 32 3,
       List.replicate 32 4, List.replicate 32 5]
      (List.replicate 32 5) = .panicked := by
  decide

/-! ### UTXO set (`bitcoin/src/block_mod/utxo.rs`)

`HashMap<Vec<u8>, HashMap<u32, TxOut>>` is embedded as an association list
of association lists (hash maps carry no observable order; all claimed
properties are about lookups and entry counts). -/

/-- Inner map: output index to `TxOut`. -/
abbrev UtxoInner := List (Nat × TxOut)

/-- The `UnspentTx` map: hashed txid to inner output map. -/
abbrev UnspentTx := List (List Nat × UtxoInner)

/-- Inner-map lookup (`HashMap::get` on the index map). -/
def lookupInner : UtxoInner → Nat → Option TxOut
  | [], _ => none
  | (k, v) :: t, i => if k = i then some v else lookupInner t i

/-- Outer-map lookup (`HashMap::get` on the txid map). -/
def lookupOuter : UnspentTx → List Nat → Option UtxoInner
  | [], _ => none
  | (k, v) :: t, key => if k = key then some v else lookupOuter t key

/-- Inner-map removal (`HashMap::remove`). -/
def eraseInner : UtxoInner → Nat → UtxoInner
  | [], _ => []
  | (k, v) :: t, i => if k = i then t else (k, v) :: eraseInner t i

/-- Outer-map removal (`HashMap::remove`). -/
def eraseOuter : UnspentTx → List Nat → UnspentTx
  | [], _ => []
  | (k, v) :: t, key => if k = key then t else (k, v) :: eraseOuter t key

/-- Outer-map insertion-or-replacement (`HashMap::insert` semantics). -/
def setOuter : UnspentTx → List Nat → UtxoInner → UnspentTx
  | [], key, nv => [(key, nv)]
  | (k, v) :: t, key, nv =>
      if k = key then (key, nv) :: t else (k, v) :: setOuter t key nv

/-- Combined two-level lookup: the `TxOut` stored under `(txid, index)`. -/
def UnspentTx.lookup (u : UnspentTx) (key : List Nat) (i : Nat) : Option TxOut :=
  match lookupOuter u key with
  | none => none
  | some inner => lookupInner inner i

/-- Spend step `UnspentTx::remove_tx_out`: a missing outer or inner entry is
a silent no-op; removing the last inner entry removes the outer entry. -/
def UnspentTx.removeTxOut (u : UnspentTx) (txin : TxIn) : UnspentTx :=
  match lookupOuter u txin.previous_output.tx_id with
  | none => u
  | some inner =>
      match lookupInner inner txin.previous_output.index with
      | none => u
      | some _ =>
          if (eraseInner inner txin.previous_output.index).length = 0 then
            eraseOuter u txin.previous_output.tx_id
          else
            setOuter u txin.previous_output.tx_id
              (eraseInner inner txin.previous_output.index)

/-- Add step `UnspentTx::add_tx_out` (`entry().or_insert()` twice): never
overwrites an existing entry. -/
def UnspentTx.addTxOut (u : UnspentTx) (txout : TxOut) (tx_id : List Nat)
    (index : Nat) : UnspentTx :=
  match lookupOuter u tx_id with
  | none => u ++ [(tx_id, [(index, txout)])]
  | some inner =>
      match lookupInner inner index with
      | none => setOuter u tx_id (inner ++ [(index, txout)])
      | some _ => u

/-- Per-transaction step `UnspentTx::update_transaction`: remove every
input's referenced entry, then add every output under the txid. -/
def UnspentTx.updateTransaction (u : UnspentTx) (tx : Transaction) : UnspentTx :=
  let u1 := tx.tx_in_list.foldl UnspentTx.removeTxOut u
  let new_tx_id := tx.getId false
  tx.tx_out_list.enum.foldl
    (fun acc p => acc.addTxOut p.2 new_tx_id p.1) u1

/-- Block step `UnspentTx::update`: processes `get_txn_list()` (the
non-coinbase transactions) in order. -/
def UnspentTx.update (u : UnspentTx) (b : Block) : UnspentTx :=
  b.getTxnList.foldl UnspentTx.updateTransaction u

/-- Entry count `UnspentTx::tx_count`: total over all inner maps. -/
def UnspentTx.txCount (u : UnspentTx) : Nat :=
  (u.map (fun p => p.2.length)).sum

/-- C10: `update` is total by construction (it is a pure function on the
map), and its two primitive steps degrade silently: removing a `(txid,
index)` that is not present leaves the map unchanged, and adding at an
already-occupied `(txid, index)` leaves the map — in particular the
existing entry — unchanged. -/
theorem c10_utxo_update_total_silent (u : UnspentTx) (txin : TxIn)
    (txout : TxOut) (key : List Nat) (i : Nat)
    (hrem : u.lookup txin.previous_output.tx_id txin.previous_output.index
      = none)
    (hadd : u.lookup key i ≠ none) :
    UnspentTx.removeTxOut u txin = u ∧ UnspentTx.addTxOut u txout key i = u := by
  constructor
  · unfold UnspentTx.removeTxOut
    unfold UnspentTx.lookup at hrem
    cases ho : lookupOuter u txin.previous_output.tx_id with
    | none => simp [ho]
    | some inner =>
        rw [ho] at hrem
        simp at hrem
        simp [ho, hrem]
  · unfold UnspentTx.addTxOut
    unfold UnspentTx.lookup at hadd
    cases ho : lookupOuter u key with
    | none =>
        rw [ho] at hadd
        simp at hadd
    | some inner =>
        rw [ho] at hadd
        simp at hadd
        cases hi : lookupInner inner i with
        | none => exact absurd hi hadd
        | some v => simp [ho, hi]

/-- Concrete `TxOut` for the UTXO instances. -/
def txOutC10 : TxOut := ⟨7, ⟨1⟩, [0x51]⟩

/-- Concrete one-entry UTXO map for the C10 witness. -/
def utxoC10 : UnspentTx := [(List.replicate 32 9, [(0, txOutC10)])]

/-- C10 witness: on a concrete one-entry map, removing an absent outpoint
and re-adding at the occupied key both leave the map unchanged. -/
theorem c10_utxo_update_total_silent_witness :
    UnspentTx.removeTxOut utxoC10 ⟨⟨List.replicate 32 8, 0⟩, ⟨0⟩, [], 0⟩ =
      utxoC10 ∧
    UnspentTx.addTxOut utxoC10 txOutC10 (List.replicate 32 9) 0 = utxoC10 :=
  c10_utxo_update_total_silent utxoC10
    ⟨⟨List.replicate 32 8, 0⟩, ⟨0⟩, [], 0⟩ txOutC10 (List.replicate 32 9) 0
    (by decide) (by decide)

theorem eraseInner_length (inner : UtxoInner) (i : Nat) (v : TxOut)
    (h : lookupInner inner i = some v) :
    (eraseInner inner i).length + 1 = inner.length := by
  induction inner with
  | nil => simp [lookupInner] at h
  | cons p t ih =>
      obtain ⟨k, w⟩ := p
      by_cases hk : k = i
      · simp [eraseInner, hk]
      · simp only [lookupInner, if_neg hk] at h
        simp [eraseInner, hk, ih h]

theorem removeTxOut_count (u : UnspentTx) (txin : TxIn) (v : TxOut)
    (h : u.lookup txin.previous_output.tx_id txin.previous_output.index
      = some v) :
    (UnspentTx.removeTxOut u txin).txCount + 1 = u.txCount := by
  induction u with
  | nil => simp [UnspentTx.lookup, lookupOuter] at h
  | cons p t ih =>
      obtain ⟨k0, inner0⟩ := p
      by_cases hk : k0 = txin.previous_output.tx_id
      · have ho : lookupOuter ((k0, inner0) :: t) txin.previous_output.tx_id
            = some inner0 := by simp [lookupOuter, hk]
        have hi : lookupInner inner0 txin.previous_output.index = some v := by
          unfold UnspentTx.lookup at h
          rw [ho] at h
          simpa using h
        unfold UnspentTx.removeTxOut
        rw [ho]
        simp only [hi]
        by_cases hz : (eraseInner inner0 txin.previous_output.index).length = 0
        · have h1 : inner0.length = 1 := by
            have := eraseInner_length inner0 txin.previous_output.index v hi
            omega
          have hzl : eraseInner inner0 txin.previous_output.index = [] :=
            List.eq_nil_of_length_eq_zero hz
          simp [hzl, eraseOuter, hk, UnspentTx.txCount, h1]
          omega
        · have hzl : ¬ eraseInner inner0 txin.previous_output.index = [] := by
            intro hcon
            exact hz (by simp [hcon])
          have := eraseInner_length inner0 txin.previous_output.index v hi
          simp [hzl, setOuter, hk, UnspentTx.txCount]
          omega
      · have ho : lookupOuter ((k0, inner0) :: t) txin.previous_output.tx_id
            = lookupOuter t txin.previous_output.tx_id := by
          simp [lookupOuter, hk]
        have ht : UnspentTx.lookup t txin.previous_output.tx_id
            txin.previous_output.index = some v := by
          unfold UnspentTx.lookup at h ⊢
          rw [ho] at h
          exact h
        have hrec := ih ht
        unfold UnspentTx.removeTxOut at hrec ⊢
        rw [ho]
        unfold UnspentTx.lookup at ht
        cases ho2 : lookupOuter t txin.previous_output.tx_id with
        | none => rw [ho2] at ht; simp at ht
        | some inner =>
            rw [ho2] at ht
            simp at ht
            rw [ho2] at hrec
            simp only [ht] at hrec ⊢
            by_cases hz : (eraseInner inner txin.previous_output.index).length = 0
            · simp only [hz, if_true, ite_true, eq_self_iff_true] at hrec ⊢
              simp [eraseOuter, hk, UnspentTx.txCount] at hrec ⊢
              omega
            · simp only [hz, if_false, ite_false] at hrec ⊢
              simp [setOuter, hk, UnspentTx.txCount] at hrec ⊢
              omega

theorem setOuter_count (u : UnspentTx) (key : List Nat) (nv inner : UtxoInner)
    (ho : lookupOuter u key = some inner) :
    (setOuter u key nv).txCount + inner.length = u.txCount + nv.length := by
  induction u with
  | nil => simp [lookupOuter] at ho
  | cons p t ih =>
      obtain ⟨k0, v0⟩ := p
      by_cases hk : k0 = key
      · simp only [lookupOuter, if_pos hk] at ho
        simp only [Option.some_inj] at ho
        simp [setOuter, hk, UnspentTx.txCount, ho]
        omega
      · simp only [lookupOuter, if_neg hk] at ho
        simp [setOuter, hk, UnspentTx.txCount]
        have := ih ho
        simp [UnspentTx.txCount] at this
        omega

theorem addTxOut_count (u : UnspentTx) (txout : TxOut) (key : List Nat)
    (i : Nat) (h : u.lookup key i = none) :
    (UnspentTx.addTxOut u txout key i).txCount = u.txCount + 1 := by
  unfold UnspentTx.addTxOut
  unfold UnspentTx.lookup at h
  cases ho : lookupOuter u key with
  | none => simp [UnspentTx.txCount]
  | some inner =>
      rw [ho] at h
      simp at h
      simp only [h]
      have := setOuter_count u key (inner ++ [(i, txout)]) inner ho
      simp at this
      omega

/-- Execution-order side condition for spends: every input, processed in
order, finds its referenced `(txid, index)` present. -/
def cleanInputs : UnspentTx → List TxIn → Bool
  | _, [] => true
  | u, txin :: rest =>
      (u.lookup txin.previous_output.tx_id txin.previous_output.index).isSome
        && cleanInputs (u.removeTxOut txin) rest

/-- Execution-order side condition for adds: every `(txid, index)` output
key, processed in order, is fresh. -/
def cleanAdds : UnspentTx → List Nat → List (Nat × TxOut) → Bool
  | _, _, [] => true
  | u, id, (i, o) :: rest =>
      (u.lookup id i).isNone && cleanAdds (u.addTxOut o id i) id rest

/-- Both side conditions along `update_transaction`'s execution. -/
def cleanTx (u : UnspentTx) (tx : Transaction) : Bool :=
  cleanInputs u tx.tx_in_list &&
    cleanAdds (tx.tx_in_list.foldl UnspentTx.removeTxOut u) (tx.getId false)
      tx.tx_out_list.enum

/-- Both side conditions along `update`'s execution over a block's
transaction list. -/
def cleanBlock : UnspentTx → List Transaction → Bool
  | _, [] => true
  | u, tx :: rest => cleanTx u tx && cleanBlock (u.updateTransaction tx) rest

/-- Total number of inputs across a transaction list. -/
def totalInputs (txs : List Transaction) : Nat :=
  (txs.map (fun t => t.tx_in_list.length)).sum

/-- Total number of outputs across a transaction list. -/
def totalOutputs (txs : List Transaction) : Nat :=
  (txs.map (fun t => t.tx_out_list.length)).sum

theorem cleanInputs_count (ins : List TxIn) (u : UnspentTx)
    (h : cleanInputs u ins = true) :
    (ins.foldl UnspentTx.removeTxOut u).txCount + ins.length = u.txCount := by
  induction ins generalizing u with
  | nil => simp
  | cons txin rest ih =>
      simp only [cleanInputs, Bool.and_eq_true] at h
      obtain ⟨h1, h2⟩ := h
      obtain ⟨v, hv⟩ := Option.isSome_iff_exists.mp h1
      have := removeTxOut_count u txin v hv
      have := ih (u.removeTxOut txin) h2
      simp only [List.foldl_cons, List.length_cons]
      omega

theorem cleanAdds_count (l : List (Nat × TxOut)) (u : UnspentTx)
    (id : List Nat) (h : cleanAdds u id l = true) :
    (l.foldl (fun acc p => acc.addTxOut p.2 id p.1) u).txCount =
      u.txCount + l.length := by
  induction l generalizing u with
  | nil => simp
  | cons p rest ih =>
      obtain ⟨i, o⟩ := p
      simp only [cleanAdds, Bool.and_eq_true] at h
      obtain ⟨h1, h2⟩ := h
      have hnone : u.lookup id i = none := Option.isNone_iff_eq_none.mp h1
      have := addTxOut_count u o id i hnone
      have := ih (u.addTxOut o id i) h2
      simp only [List.foldl_cons, List.length_cons]
      omega

theorem cleanTx_count (u : UnspentTx) (tx : Transaction)
    (h : cleanTx u tx = true) :
    (u.updateTransaction tx).txCount + tx.tx_in_list.length =
      u.txCount + tx.tx_out_list.length := by
  simp only [cleanTx, Bool.and_eq_true] at h
  obtain ⟨h1, h2⟩ := h
  have e1 := cleanInputs_count tx.tx_in_list u h1
  have e2 := cleanAdds_count tx.tx_out_list.enum
    (tx.tx_in_list.foldl UnspentTx.removeTxOut u) (tx.getId false) h2
  have hlen : tx.tx_out_list.enum.length = tx.tx_out_list.length :=
    List.enum_length
  simp only [UnspentTx.updateTransaction]
  omega

theorem cleanBlock_count (txs : List Transaction) (u : UnspentTx)
    (h : cleanBlock u txs = true) :
    (txs.foldl UnspentTx.updateTransaction u).txCount + totalInputs txs =
      u.txCount + totalOutputs txs := by
  induction txs generalizing u with
  | nil => simp [totalInputs, totalOutputs]
  | cons tx rest ih =>
      simp only [cleanBlock, Bool.and_eq_true] at h
      obtain ⟨h1, h2⟩ := h
      have := cleanTx_count u tx h1
      have := ih (u.updateTransaction tx) h2
      simp only [List.foldl_cons, totalInputs, totalOutputs, List.map_cons,
        List.sum_cons] at *
      omega

/-- C4 (amended): `update(b)` removes each input's referenced entry, adds
each output under the producing txid and drops emptied inner maps, and the
exact cardinality identity `|after| + inputs = |before| + outputs` holds
whenever, along the execution, every spent outpoint is present and every
added `(txid, index)` key is fresh (without those side conditions the
removal no-ops / non-overwriting adds of C10 break exactness). -/
theorem c4_utxo_update_cardinality (u : UnspentTx) (b : Block)
    (h : cleanBlock u b.getTxnList = true) :
    (u.update b).txCount + totalInputs b.getTxnList =
      u.txCount + totalOutputs b.getTxnList :=
  cleanBlock_count b.getTxnList u h

/-- Concrete transaction for the C4 instances: spends `(0x11…11, 0)` and
creates two outputs. -/
def txC4 : Transaction :=
  { version := 1
    flag := 0
    tx_in_count := ⟨1⟩
    tx_in_list := [⟨⟨List.replicate 32 0x11, 0⟩, ⟨0⟩, [], 0⟩]
    tx_out_count := ⟨2⟩
    tx_out_list := [⟨10, ⟨1⟩, [0x51]⟩, ⟨20, ⟨1⟩, [0x52]⟩]
    witness := []
    lock_time := 0 }

/-- Concrete block holding `txC4` (header and coinbase contents are
irrelevant to `update`, which walks `get_txn_list()` only). -/
def blkC4 : Block :=
  { block_header := ⟨1, List.replicate 32 0, List.replicate 32 0, 5, 0, 0⟩
    txn_count := ⟨2⟩
    coinbase :=
      ⟨1, 0, ⟨1⟩,
        [⟨List.replicate 32 0, 4294967295, ⟨1⟩, ⟨0, 0, []⟩, [], 4294967295⟩],
        ⟨1⟩, [⟨50, ⟨0⟩, []⟩], [], 0⟩
    txn_list := [txC4] }

/-- C4 counterexample: on the empty UTXO set, `update(blkC4)` consumes
nothing (the input's outpoint is absent, a silent no-op) yet adds both
outputs, so the claimed unconditional identity
`|after| = |before| - inputs + outputs` fails: 2 + 1 ≠ 0 + 2. -/
theorem c4_utxo_update_cardinality_counterexample :
    ¬ ((UnspentTx.update [] blkC4).txCount + totalInputs blkC4.getTxnList =
        UnspentTx.txCount [] + totalOutputs blkC4.getTxnList) := by
  decide

/-- Concrete one-entry UTXO set containing the outpoint `txC4` spends. -/
def utxoC4 : UnspentTx := [(List.replicate 32 0x11, [(0, ⟨7, ⟨1⟩, [0x53]⟩)])]

/-- C4 witness: the amended identity instantiated on `utxoC4` and `blkC4`,
the cleanness hypothesis discharged by `decide`: 2 + 1 = 1 + 2. -/
theorem c4_utxo_update_cardinality_witness :
    (UnspentTx.update utxoC4 blkC4).txCount + totalInputs blkC4.getTxnList =
      UnspentTx.txCount utxoC4 + totalOutputs blkC4.getTxnList :=
  c4_utxo_update_cardinality utxoC4 blkC4 (by decide)

/-! ### Header chain (`node/src/block_mod/blockchain.rs`) -/

/-- Modelled from the spec: `node/src/network/network_constants.rs` is
absent from the snapshot; the genesis constants follow the specification's
testnet genesis header (version 1, zero previous hash, Merkle root
`0x3ba3edfd…` in little-endian byte order, time 1296688602, nbits
486604799, nonce 414098458). -/
def GENESIS_VERSION : Nat := 1

/-- Modelled from the spec: zero previous-header hash of the genesis. -/
def GENESIS_PREVIOUS_BLOCK_HEADER_HASH : List Nat := List.replicate 32 0

/-- Modelled from the spec: genesis Merkle root, little-endian bytes. -/
def GENESIS_MERKLE_ROOT_HASH : List Nat :=
  [0x3b, 0xa3, 0xed, 0xfd, 0x7a, 0x7b, 0x12, 0xb2, 0x7a, 0xc7, 0x2c, 0x3e,
   0x67, 0x76, 0x8f, 0x61, 0x7f, 0xc8, 0x1b, 0xc3, 0x88, 0x8a, 0x51, 0x32,
   0x3a, 0x9f, 0xb8, 0xaa, 0x4b, 0x1e, 0x5e, 0x4a]

/-- Modelled from the spec: genesis timestamp. -/
def GENESIS_TIME : Nat := 1296688602

/-- Modelled from the spec: genesis difficulty bits. -/
def GENESIS_NBITS : Nat := 486604799

/-- Modelled from the spec: genesis nonce. -/
def GENESIS_NONCE : Nat := 414098458

/-- The block store plus the tip header (`BlockChain`). -/
structure BlockChain where
  blocks : List (List Nat × Block)
  last_block_header : BlockHeader

/-- Constructor `BlockChain::new`: empty store, genesis tip. -/
def BlockChain.new : BlockChain :=
  ⟨[], ⟨GENESIS_VERSION, GENESIS_PREVIOUS_BLOCK_HEADER_HASH,
        GENESIS_MERKLE_ROOT_HASH, GENESIS_TIME, GENESIS_NBITS,
        GENESIS_NONCE⟩⟩

/-- `HashMap::insert` on the block store: replaces an existing key. -/
def insertReplace : List (List Nat × Block) → List Nat → Block →
    List (List Nat × Block)
  | [], k, b => [(k, b)]
  | (k0, v0) :: t, k, b =>
      if k0 = k then (k, b) :: t else (k0, v0) :: insertReplace t k b

/-- Insertion `BlockChain::add`: the tip is replaced exactly when the new
header's time is strictly larger; the block is stored under its header
hash. -/
def BlockChain.add (c : BlockChain) (block : Block) : BlockChain :=
  { last_block_header :=
      if c.last_block_header.getTime < block.block_header.getTime then
        block.block_header
      else c.last_block_header
    blocks := insertReplace c.blocks block.block_header.getHeader block }

theorem add_tip_time (c : BlockChain) (b : Block) :
    (c.add b).last_block_header.time =
      max c.last_block_header.time b.block_header.time := by
  simp only [BlockChain.add, BlockHeader.getTime]
  by_cases h : c.last_block_header.time < b.block_header.time
  · simp only [if_pos h]
    omega
  · simp only [if_neg h]
    omega

theorem tip_time_fold (bs : List Block) (c : BlockChain) :
    (bs.foldl BlockChain.add c).last_block_header.time =
      bs.foldl (fun m b => max m b.block_header.time)
        c.last_block_header.time := by
  induction bs generalizing c with
  | nil => rfl
  | cons b rest ih =>
      simp only [List.foldl_cons, ih (c.add b), add_tip_time]

/-- C9: after any sequence of `add` operations starting from `new()`, the
tip's time is the maximum of the genesis time and the times of all inserted
block headers, and each individual `add` moves the tip time monotonically
(it never decreases). -/
theorem c9_blockchain_tip_max_time :
    (∀ bs : List Block,
      (bs.foldl BlockChain.add BlockChain.new).last_block_header.getTime =
        bs.foldl (fun m b => max m b.block_header.getTime) GENESIS_TIME) ∧
    (∀ (c : BlockChain) (b : Block),
      c.last_block_header.getTime ≤ (c.add b).last_block_header.getTime) := by
  constructor
  · intro bs
    simp only [BlockHeader.getTime]
    exact tip_time_fold bs BlockChain.new
  · intro c b
    simp only [BlockHeader.getTime, add_tip_time]
    omega

/-! ### Block-download worker (`node/src/network/block_download.rs`)

The worker's interaction with its socket is abstracted into a list of
per-inventory read outcomes: `some b` means one block message was framed,
parsed and forwarded to the saver channel; `none` means any of the failure
points of that iteration (header read error, auxiliary-message error, block
parse error, channel send error), all of which run
`manage_block_download_error` with the *whole* batch and break the worker
loop. -/

/-- An inventory item (`messages/inventory.rs`). -/
structure Inventory where
  data_type : Nat
  hash : List Nat
  deriving DecidableEq, Repr

/-- Error handler `manage_block_download_error`: extends the shared queue
with the given inventories. -/
def manage_block_download_error (shared_inventories : List Inventory)
    (invs : List Inventory) : List Inventory :=
  shared_inventories ++ invs

/-- Batch helper `take_invs`: pops up to `amount` items off the end of the
shared queue; returns the batch and the remaining queue. -/
def take_invs : List Inventory → Nat → (List Inventory × List Inventory)
  | q, 0 => ([], q)
  | q, n + 1 =>
      match q.getLast? with
      | none => ([], q)
      | some x =>
          let p := take_invs q.dropLast n
          (x :: p.1, p.2)

/-- The per-item loop of one batch: `fuel` starts at the batch size; each
iteration consumes one read outcome.  On success the block is forwarded
(collected in `sent`); on any failure the *entire* batch `inv` is pushed
back onto `queue` and the worker exits (`true`). -/
def workerBatchGo (queue inv : List Inventory) :
    Nat → List (Option Block) → List Block →
    (List Block × List Inventory × Bool)
  | 0, _, sent => (sent.reverse, queue, false)
  | _ + 1, [], sent =>
      (sent.reverse, manage_block_download_error queue inv, true)
  | _ + 1, none :: _, sent =>
      (sent.reverse, manage_block_download_error queue inv, true)
  | n + 1, some b :: rest, sent => workerBatchGo queue inv n rest (b :: sent)

/-- One batch of the worker loop: blocks forwarded, queue afterwards, and
whether the worker exited on error. -/
def processBatch (queue inv : List Inventory) (reads : List (Option Block)) :
    List Block × List Inventory × Bool :=
  workerBatchGo queue inv inv.length reads []

theorem workerBatchGo_error (queue inv : List Inventory) (bs : List Block)
    (rest : List (Option Block)) :
    ∀ (n : Nat) (acc : List Block), bs.length < n →
      workerBatchGo queue inv n (bs.map some ++ none :: rest) acc =
        (acc.reverse ++ bs, queue ++ inv, true) := by
  induction bs with
  | nil =>
      intro n acc hn
      match n, hn with
      | m + 1, _ =>
          simp [workerBatchGo, manage_block_download_error]
  | cons b bs' ih =>
      intro n acc hn
      match n, hn with
      | m + 1, hn =>
          have hm : bs'.length < m := by simp at hn; omega
          simp only [List.map_cons, List.cons_append, workerBatchGo,
            List.append_eq]
          rw [ih m (b :: acc) hm]
          simp

/-- C8 (amended): when a read fails after `k` successfully forwarded blocks
of a batch, the worker pushes the *entire* batch — including the
inventories whose blocks were already forwarded to the saver — back onto
the shared queue, and exits.  (The claim's "exactly the remaining
unfulfilled inventories" is what the code does not do.) -/
theorem c8_worker_requeues_whole_batch (queue inv : List Inventory)
    (bs : List Block) (rest : List (Option Block))
    (h : bs.length < inv.length) :
    processBatch queue inv (bs.map some ++ none :: rest) =
      (bs, queue ++ inv, true) := by
  unfold processBatch
  simpa using workerBatchGo_error queue inv bs rest inv.length [] h

/-- First concrete inventory for the C8 instances. -/
def invC8a : Inventory := ⟨2, List.replicate 32 1⟩

/-- Second concrete inventory for the C8 instances. -/
def invC8b : Inventory := ⟨2, List.replicate 32 2⟩

/-- Concrete block for the C8 instances. -/
def blkC8 : Block :=
  ⟨⟨1, List.replicate 32 0, List.replicate 32 0, 7, 0, 0⟩, ⟨1⟩,
   ⟨1, 0, ⟨1⟩, [], ⟨0⟩, [], [], 0⟩, []⟩

/-- C8 counterexample: batch `[a, b]`, block for `a` already forwarded,
error on `b`'s read.  The queue receives `[a, b]` — not the remaining
`[b]` — so inventories already forwarded to the saver are pushed back,
contradicting the claim. -/
theorem c8_worker_requeues_whole_batch_counterexample :
    processBatch [] [invC8a, invC8b] [some blkC8, none] =
      ([blkC8], [invC8a, invC8b], true) ∧
    ([invC8a, invC8b] : List Inventory) ≠ [invC8b] := by
  constructor
  · decide
  · decide

/-- C8 witness: the amended theorem at the concrete batch, hypothesis
discharged by `decide`. -/
theorem c8_worker_requeues_whole_batch_witness :
    processBatch [] [invC8a, invC8b] ([blkC8].map some ++ none :: []) =
      ([blkC8], [] ++ [invC8a, invC8b], true) :=
  c8_worker_requeues_whole_batch [] [invC8a, invC8b] [blkC8] [] (by decide)

/-! ### Bech32 (`wallet/src/bech32/bech32.rs`)

The companion `bech32_constants.rs` is absent from the snapshot.  Modelled
from the spec: the 32-symbol Bech32 alphabet (whose decode example in the
spec pins it down), the case-insensitive reverse table, the 5-bit encoding
mask, and the five BCH generator constants. -/

/-- Modelled from the spec: the 32-symbol alphabet
`qpzry9x8gf2tvdw0s3jn54khce6mua7l` as ASCII bytes (`CHARSET`). -/
def CHARSET : List Nat :=
  [113, 112, 122, 114, 121, 57, 120, 56, 103, 102, 50, 116, 118, 100, 119,
   48, 115, 51, 106, 110, 53, 52, 107, 104, 99, 101, 54, 109, 117, 97, 55,
   108]

/-- Modelled from the spec: the reverse alphabet table (`CHARSET_REV`),
mapping either case of a symbol to its 5-bit value and everything else to
255 (the `-1` sentinel cast to `u8`). -/
def CHARSET_REV (b : Nat) : Nat :=
  ((CHARSET.indexOf? (if 65 ≤ b ∧ b ≤ 90 then b + 32 else b)).getD 255)

/-- Modelled from the spec: the 5-bit mask (`ENCODING_MASK`). -/
def ENCODING_MASK : Nat := 31

/-- Error enumeration `bech32_errors.rs`. -/
inductive Bech32Error where
  | InvalidLength
  | InvalidHRP
  | InvalidData
  | InvalidCase
  | InvalidChecksum
  | InvalidInput
  | InvalidPadding
  deriving DecidableEq, Repr

/-- Outcome of a Rust function that may return, error, or panic. -/
inductive BechResult (α : Type) where
  | ok (a : α)
  | err (e : Bech32Error)
  | panicked
  deriving DecidableEq, Repr

/-- A decoded Bech32 value: HRP bytes and 5-bit data symbols. -/
structure Bech32 where
  hrp : List Nat
  data : List Nat
  deriving DecidableEq, Repr

/-- Split step `split_bech32`: length 8..90, prefix `tb1` or `TB1`; returns
the two HRP bytes and the data region after the separator. -/
def split_bech32 (s : List Nat) : Except Bech32Error (List Nat × List Nat) :=
  if s.length < 8 ∨ 90 < s.length then .error .InvalidLength
  else if ¬ (s.take 3 = [0x74, 0x62, 0x31] ∨ s.take 3 = [0x54, 0x42, 0x31])
  then .error .InvalidHRP
  else .ok (s.take 2, s.drop 3)

/-- Character validation and decoding `validate_data`: alphanumeric bytes
excluding `1`, `b`, `i`, `o`, case-consistent with the HRP, decoded through
the reverse alphabet. -/
def validate_data : List Nat → Bool → Except Bech32Error (List Nat)
  | [], _ => .ok []
  | b :: t, is_lowercase =>
      if ¬ ((48 ≤ b ∧ b ≤ 57) ∨ (65 ≤ b ∧ b ≤ 90) ∨ (97 ≤ b ∧ b ≤ 122))
          ∨ b = 49 ∨ b = 98 ∨ b = 105 ∨ b = 111 then .error .InvalidData
      else if (is_lowercase ∧ 65 ≤ b ∧ b ≤ 90)
          ∨ (¬ is_lowercase = true ∧ 97 ≤ b ∧ b ≤ 122) then
        .error .InvalidCase
      else
        match validate_data t is_lowercase with
        | .error e => .error e
        | .ok rest => .ok (CHARSET_REV b :: rest)

/-- HRP expansion `encode_hrp`: high 3 bits of each byte, a zero, then the
low 5 bits of each byte.  Note it expands the HRP bytes it is given —
uppercase bytes expand differently from lowercase ones. -/
def encode_hrp (hrp : List Nat) : List Nat :=
  hrp.map (fun b => b >>> 5) ++ [0] ++ hrp.map (fun b => b &&& ENCODING_MASK)

/-- One conditional generator XOR of the polymod inner loop. -/
def condXor (c : Bool) (g x : Nat) : Nat :=
  if c then x ^^^ g else x

/-- The five conditional generator XORs (`for i in 0..5 { if bit i ... }`),
with the spec's BCH generator constants. -/
def genFold (b x : Nat) : Nat :=
  condXor (((b >>> 4) &&& 1) == 1) 0x2a1462b3
    (condXor (((b >>> 3) &&& 1) == 1) 0x3d4233dd
      (condXor (((b >>> 2) &&& 1) == 1) 0x1ea119fa
        (condXor (((b >>> 1) &&& 1) == 1) 0x26508e6d
          (condXor (((b >>> 0) &&& 1) == 1) 0x3b6a57b2 x))))

/-- One step of `polymod`: shift the low 25 bits up by five, mix in the
value, then apply the generator XORs selected by the former top bits. -/
def polymodStep (chk v : Nat) : Nat :=
  genFold (chk >>> 25) (((chk &&& 0x1ffffff) <<< 5) ^^^ v)

/-- Checksum polynomial `polymod`. -/
def polymod (values : List Nat) : Nat :=
  values.foldl polymodStep 1

/-- Verification `validate_checksum`: `polymod(expand(hrp) || data) = 1`. -/
def validate_checksum (hrp data : List Nat) : Except Bech32Error Unit :=
  if polymod (encode_hrp hrp ++ data) ≠ 1 then .error .InvalidChecksum
  else .ok ()

/-- Creation `create_checksum`: always expands the lowercase HRP `tb`,
appends six zeros, XORs the polymod with 1 and emits six 5-bit symbols. -/
def create_checksum (data : List Nat) : List Nat :=
  let p := polymod (encode_hrp [0x74, 0x62] ++ data ++ [0, 0, 0, 0, 0, 0]) ^^^ 1
  (List.range 6).map (fun index => (p >>> (5 * (5 - index))) &&& 0x1f)

/-- Decoder `Bech32::from_address`: split, validate/decode the data region
(lowercase mode exactly when the HRP bytes are lowercase `tb`), validate
the checksum against the HRP bytes as given, and drop the final six
symbols.  `panicked` models the slice underflow `data_bytes[..len - 6]`
when fewer than six symbols are present. -/
def Bech32.from_address (s : List Nat) : BechResult Bech32 :=
  match split_bech32 s with
  | .error e => .err e
  | .ok (hrp, data) =>
      match validate_data data (hrp == [0x74, 0x62]) with
      | .error e => .err e
      | .ok data_bytes =>
          match validate_checksum hrp data_bytes with
          | .error e => .err e
          | .ok _ =>
              if 6 ≤ data_bytes.length then
                .ok ⟨hrp, data_bytes.take (data_bytes.length - 6)⟩
              else .panicked

/-- Alphabet lookup for every symbol of a list; `none` models the Rust
index panic `CHARSET[byte]` on a value outside `0..32`. -/
def mapCharset : List Nat → Option (List Nat)
  | [] => some []
  | b :: t =>
      match CHARSET.get? b, mapCharset t with
      | some c, some r => some (c :: r)
      | _, _ => none

/-- Encoder `Bech32::to_address`: re-append a freshly created checksum,
emit `tb1` plus the alphabet symbols, then re-validate data and checksum
(the latter against the stored HRP bytes). -/
def Bech32.to_address (b : Bech32) : BechResult (List Nat) :=
  let data_bytes := b.data ++ create_checksum b.data
  match mapCharset data_bytes with
  | none => .panicked
  | some chars =>
      let address := [0x74, 0x62, 0x31] ++ chars
      match validate_data (address.drop 3) (b.hrp == [0x74, 0x62]) with
      | .error e => .err e
      | .ok _ =>
          match validate_checksum b.hrp data_bytes with
          | .error e => .err e
          | .ok _ => .ok address

/-- ASCII lowercasing of a byte string (`str::to_lowercase`). -/
def toLowercase (s : List Nat) : List Nat :=
  s.map (fun b => if 65 ≤ b ∧ b ≤ 90 then b + 32 else b)

/-- The valid testnet address `tb1q79gkmhfaw9szkn8fmg22llkx2sfhlx7ykptww6`
as ASCII bytes. -/
def addrC6lower : List Nat :=
  [116, 98, 49, 113, 55, 57, 103, 107, 109, 104, 102, 97, 119, 57, 115, 122,
   107, 110, 56, 102, 109, 103, 50, 50, 108, 108, 107, 120, 50, 115, 102,
   104, 108, 120, 55, 121, 107, 112, 116, 119, 119, 54]

/-- The same address written entirely in uppercase (`TB1Q79…WW6`). -/
def addrC6upper : List Nat :=
  [84, 66, 49, 81, 55, 57, 71, 75, 77, 72, 70, 65, 87, 57, 83, 90, 75, 78,
   56, 70, 77, 71, 50, 50, 76, 76, 75, 88, 50, 83, 70, 72, 76, 88, 55, 89,
   75, 80, 84, 87, 87, 54]

/-- C6 counterexample: the claim includes valid addresses written entirely
in uppercase, but `from_address` rejects the uppercase form of a
checksum-valid address with `InvalidChecksum` (its `validate_checksum`
expands the raw `TB` HRP bytes, which differ from the lowercase expansion
the checksum was computed over), while accepting the lowercase form. -/
theorem c6_uppercase_rejected_counterexample :
    Bech32.from_address addrC6lower = .ok
      ⟨[0x74, 0x62],
       [0, 30, 5, 8, 22, 27, 23, 9, 29, 14, 5, 16, 2, 22, 19, 7, 9, 27, 8,
        10, 10, 31, 31, 22, 6, 10, 16, 9, 23, 31, 6, 30, 4]⟩ ∧
    Bech32.from_address addrC6upper = .err .InvalidChecksum ∧
    toLowercase addrC6upper = addrC6lower := by
  refine ⟨by decide, by decide, by decide⟩

theorem condXor_xor (c : Bool) (g x d : Nat) :
    condXor c g (x ^^^ d) = condXor c g x ^^^ d := by
  cases c with
  | false => simp [condXor]
  | true =>
      simp only [condXor, if_true, ite_true]
      rw [Nat.xor_assoc, Nat.xor_comm d g, ← Nat.xor_assoc]

theorem genFold_xor (b x d : Nat) :
    genFold b (x ^^^ d) = genFold b x ^^^ d := by
  simp only [genFold, condXor_xor]

theorem polymodStep_val (S v : Nat) :
    polymodStep S v = polymodStep S 0 ^^^ v := by
  simp only [polymodStep, Nat.xor_zero, genFold_xor]

theorem xor_shiftRight_high (x d n : Nat) (h : d < 2 ^ n) :
    (x ^^^ d) >>> n = x >>> n := by
  apply Nat.eq_of_testBit_eq
  intro j
  have hd : d.testBit (n + j) = false :=
    Nat.testBit_lt_two_pow
      (lt_of_lt_of_le h (Nat.pow_le_pow_right (by norm_num) (by omega)))
  simp [Nat.testBit_shiftRight, Nat.testBit_xor, hd]

theorem xor_low_mask (x d n : Nat) (h : d < 2 ^ n) :
    (x ^^^ d) &&& (2 ^ n - 1) = (x &&& (2 ^ n - 1)) ^^^ d := by
  apply Nat.eq_of_testBit_eq
  intro j
  simp only [Nat.testBit_and, Nat.testBit_xor, Nat.testBit_two_pow_sub_one]
  by_cases hj : j < n
  · simp [hj]
  · have hd : d.testBit j = false :=
      Nat.testBit_lt_two_pow
        (lt_of_lt_of_le h (Nat.pow_le_pow_right (by norm_num) (by omega)))
    simp [hj, hd]

theorem xor_shiftLeft (x y n : Nat) :
    (x ^^^ y) <<< n = (x <<< n) ^^^ (y <<< n) := by
  apply Nat.eq_of_testBit_eq
  intro j
  simp only [Nat.testBit_shiftLeft, Nat.testBit_xor]
  by_cases hj : n ≤ j <;> simp [hj]

theorem polymodStep_absorb (S d v : Nat) (h : d < 33554432) :
    polymodStep (S ^^^ d) v = polymodStep S v ^^^ (d <<< 5) := by
  have h25 : d < 2 ^ 25 := by norm_num at h ⊢; omega
  have hm : (0x1ffffff : Nat) = 2 ^ 25 - 1 := by norm_num
  simp only [polymodStep, hm]
  rw [xor_shiftRight_high S d 25 h25, xor_low_mask S d 25 h25, xor_shiftLeft,
    Nat.xor_assoc, Nat.xor_comm (d <<< 5) v, ← Nat.xor_assoc, genFold_xor]

theorem foldl_polymodStep_absorb (cs : List Nat) :
    ∀ A d : Nat, d * 2 ^ (5 * cs.length) < 2 ^ 30 →
      List.foldl polymodStep (A ^^^ d) cs =
        List.foldl polymodStep A cs ^^^ (d <<< (5 * cs.length)) := by
  induction cs with
  | nil =>
      intro A d _
      simp
  | cons c rest ih =>
      intro A d h
      have h32 : (2 : Nat) ^ 5 ≤ 2 ^ (5 * (rest.length + 1)) :=
        Nat.pow_le_pow_right (by norm_num) (by omega)
      have hdlt : d < 33554432 := by
        have h1 : d * 2 ^ 5 ≤ d * 2 ^ (5 * (rest.length + 1)) :=
          Nat.mul_le_mul_left d h32
        have h2 : d * 2 ^ 5 < 2 ^ 30 := by
          calc d * 2 ^ 5 ≤ d * 2 ^ (5 * (rest.length + 1)) := h1
            _ < 2 ^ 30 := by simpa using h
        norm_num at h2
        omega
      have hnext : (d <<< 5) * 2 ^ (5 * rest.length) < 2 ^ 30 := by
        have he : (d <<< 5) * 2 ^ (5 * rest.length) =
            d * 2 ^ (5 * (rest.length + 1)) := by
          rw [Nat.shiftLeft_eq, Nat.mul_assoc, ← pow_add]
          congr 2
          omega
        rw [he]
        simpa using h
      simp only [List.foldl_cons, List.length_cons]
      rw [polymodStep_absorb A d c hdlt, ih (polymodStep A c) (d <<< 5) hnext,
        ← Nat.shiftLeft_add]
      congr 2
      omega

theorem shiftLeft_xor_add (a b k : Nat) (h : b < 2 ^ k) :
    (a <<< k) ^^^ b = a * 2 ^ k + b := by
  apply Nat.eq_of_testBit_eq
  intro j
  have hsum : ∀ j', Nat.testBit (2 ^ k * a + b) j' =
      if j' < k then b.testBit j' else a.testBit (j' - k) :=
    Nat.testBit_mul_pow_two_add a h
  rw [Nat.mul_comm a (2 ^ k)] at *
  rw [hsum j, Nat.testBit_xor, Nat.testBit_shiftLeft]
  by_cases hj : j < k
  · simp [hj, Nat.not_le_of_lt hj]
  · have hb : b.testBit j = false :=
      Nat.testBit_lt_two_pow
        (lt_of_lt_of_le h (Nat.pow_le_pow_right (by norm_num) (by omega)))
    simp [hj, Nat.le_of_not_lt, hb, Nat.not_lt.mp hj]

/-- Base-32 value of a symbol list, highest symbol first. -/
def pack5 : List Nat → Nat
  | [] => 0
  | c :: t => c * 2 ^ (5 * t.length) + pack5 t

theorem pack5_lt (cs : List Nat) (h : ∀ c ∈ cs, c < 32) :
    pack5 cs < 2 ^ (5 * cs.length) := by
  induction cs with
  | nil => simp [pack5]
  | cons c t ih =>
      have hc : c < 32 := h c (by simp)
      have ht : pack5 t < 2 ^ (5 * t.length) :=
        ih (fun x hx => h x (by simp [hx]))
      have he : (2 : Nat) ^ (5 * (t.length + 1)) = 32 * 2 ^ (5 * t.length) := by
        rw [show 5 * (t.length + 1) = 5 + 5 * t.length by omega, pow_add]
        norm_num
      simp only [pack5, List.length_cons, he]
      calc c * 2 ^ (5 * t.length) + pack5 t
          < c * 2 ^ (5 * t.length) + 2 ^ (5 * t.length) := by omega
        _ = (c + 1) * 2 ^ (5 * t.length) := by ring
        _ ≤ 32 * 2 ^ (5 * t.length) :=
            Nat.mul_le_mul_right _ (by omega)

theorem foldl_polymodStep_pack (cs : List Nat) :
    ∀ S : Nat, (∀ c ∈ cs, c < 32) → 5 * cs.length ≤ 30 →
      List.foldl polymodStep S cs =
        List.foldl polymodStep S (List.replicate cs.length 0) ^^^ pack5 cs := by
  induction cs with
  | nil =>
      intro S _ _
      simp [pack5]
  | cons c t ih =>
      intro S hb hlen
      have hc : c < 32 := hb c (by simp)
      have ht : ∀ x ∈ t, x < 32 := fun x hx => hb x (by simp [hx])
      have hlt : 5 * t.length ≤ 30 := by simp at hlen; omega
      have habs : c * 2 ^ (5 * t.length) < 2 ^ 30 := by
        have h1 : c * 2 ^ (5 * t.length) < 32 * 2 ^ (5 * t.length) :=
          (Nat.mul_lt_mul_right (Nat.two_pow_pos _)).mpr hc
        have h2 : (32 : Nat) * 2 ^ (5 * t.length) = 2 ^ (5 + 5 * t.length) := by
          rw [pow_add]
          norm_num
        have h3 : (2 : Nat) ^ (5 + 5 * t.length) ≤ 2 ^ 30 :=
          Nat.pow_le_pow_right (by norm_num) (by simp at hlen; omega)
        omega
      have hpk : pack5 t < 2 ^ (5 * t.length) := pack5_lt t ht
      simp only [List.foldl_cons, List.length_cons, List.replicate_succ]
      rw [polymodStep_val S c,
        foldl_polymodStep_absorb t (polymodStep S 0) c habs, ih _ ht hlt,
        Nat.xor_assoc, Nat.xor_comm (pack5 t) (c <<< (5 * t.length))]
      simp only [pack5]
      rw [shiftLeft_xor_add c (pack5 t) (5 * t.length) hpk]

theorem extract5 (c0 c1 c2 c3 c4 c5 : Nat) (h0 : c0 < 32) (h1 : c1 < 32)
    (h2 : c2 < 32) (h3 : c3 < 32) (h4 : c4 < 32) (h5 : c5 < 32) :
    ((c0 * 2 ^ 25 + c1 * 2 ^ 20 + c2 * 2 ^ 15 + c3 * 2 ^ 10 + c4 * 2 ^ 5 + c5)
        >>> 25) &&& 31 = c0 ∧
    ((c0 * 2 ^ 25 + c1 * 2 ^ 20 + c2 * 2 ^ 15 + c3 * 2 ^ 10 + c4 * 2 ^ 5 + c5)
        >>> 20) &&& 31 = c1 ∧
    ((c0 * 2 ^ 25 + c1 * 2 ^ 20 + c2 * 2 ^ 15 + c3 * 2 ^ 10 + c4 * 2 ^ 5 + c5)
        >>> 15) &&& 31 = c2 ∧
    ((c0 * 2 ^ 25 + c1 * 2 ^ 20 + c2 * 2 ^ 15 + c3 * 2 ^ 10 + c4 * 2 ^ 5 + c5)
        >>> 10) &&& 31 = c3 ∧
    ((c0 * 2 ^ 25 + c1 * 2 ^ 20 + c2 * 2 ^ 15 + c3 * 2 ^ 10 + c4 * 2 ^ 5 + c5)
        >>> 5) &&& 31 = c4 ∧
    ((c0 * 2 ^ 25 + c1 * 2 ^ 20 + c2 * 2 ^ 15 + c3 * 2 ^ 10 + c4 * 2 ^ 5 + c5)
        >>> 0) &&& 31 = c5 := by
  have h31 : ∀ x : Nat, x &&& 31 = x % 2 ^ 5 := by
    intro x
    rw [show (31 : Nat) = 2 ^ 5 - 1 by norm_num,
      Nat.and_pow_two_sub_one_eq_mod]
  refine ⟨?_, ?_, ?_, ?_, ?_, ?_⟩ <;>
    · rw [Nat.shiftRight_eq_div_pow, h31]
      norm_num
      omega

set_option synthInstance.maxSize 1024 in
set_option synthInstance.maxHeartbeats 1000000 in
theorem validLowerChar_facts :
    ∀ b : Nat, b < 123 →
      ((48 ≤ b ∧ b ≤ 57) ∨ (65 ≤ b ∧ b ≤ 90) ∨ (97 ≤ b ∧ b ≤ 122)) →
      ¬ (b = 49 ∨ b = 98 ∨ b = 105 ∨ b = 111) →
      ¬ (65 ≤ b ∧ b ≤ 90) →
      CHARSET_REV b < 32 ∧ CHARSET.get? (CHARSET_REV b) = some b := by
  decide

theorem validate_data_lower_facts (l : List Nat) :
    ∀ db : List Nat, validate_data l true = .ok db →
      (∀ v ∈ db, v < 32) ∧ mapCharset db = some l ∧ toLowercase l = l := by
  induction l with
  | nil =>
      intro db h
      simp only [validate_data] at h
      cases h
      exact ⟨by simp, rfl, rfl⟩
  | cons b t ih =>
      intro db h
      simp only [validate_data] at h
      split at h
      · exact Except.noConfusion h
      · split at h
        · exact Except.noConfusion h
        · next hc1 hc2 =>
            split at h
            · exact Except.noConfusion h
            · next rest hrec =>
                injection h with h2
                subst h2
                have halnum : (48 ≤ b ∧ b ≤ 57) ∨ (65 ≤ b ∧ b ≤ 90)
                    ∨ (97 ≤ b ∧ b ≤ 122) :=
                  not_not.mp (fun hna => hc1 (Or.inl hna))
                have hexcl : ¬ (b = 49 ∨ b = 98 ∨ b = 105 ∨ b = 111) :=
                  fun he => hc1 (Or.inr he)
                have hnotup : ¬ (65 ≤ b ∧ b ≤ 90) := by
                  intro hcon
                  exact hc2 (Or.inl ⟨trivial, hcon⟩)
                have hb123 : b < 123 := by omega
                obtain ⟨hlt32, hget⟩ :=
                  validLowerChar_facts b hb123 halnum hexcl hnotup
                obtain ⟨ih1, ih2, ih3⟩ := ih rest hrec
                refine ⟨?_, ?_, ?_⟩
                · intro v hv
                  cases hv with
                  | head => exact hlt32
                  | tail _ hm => exact ih1 v hm
                · rw [List.get?_eq_getElem?] at hget
                  simp [mapCharset, hget, ih2]
                · simp only [toLowercase, List.map_cons, if_neg hnotup]
                  simp only [toLowercase] at ih3
                  rw [ih3]

theorem list_length_six {l : List Nat} (h : l.length = 6) :
    ∃ c0 c1 c2 c3 c4 c5, l = [c0, c1, c2, c3, c4, c5] := by
  match l, h with
  | [c0, c1, c2, c3, c4, c5], _ => exact ⟨c0, c1, c2, c3, c4, c5, rfl⟩

theorem create_checksum_inverts (body tail : List Nat)
    (htl : tail.length = 6) (hlt : ∀ c ∈ tail, c < 32)
    (h : polymod (encode_hrp [0x74, 0x62] ++ (body ++ tail)) = 1) :
    create_checksum body = tail := by
  obtain ⟨c0, c1, c2, c3, c4, c5, rfl⟩ := list_length_six htl
  have h0 : c0 < 32 := hlt c0 (by simp)
  have h1 : c1 < 32 := hlt c1 (by simp)
  have h2 : c2 < 32 := hlt c2 (by simp)
  have h3 : c3 < 32 := hlt c3 (by simp)
  have h4 : c4 < 32 := hlt c4 (by simp)
  have h5 : c5 < 32 := hlt c5 (by simp)
  have hsplit : polymod (encode_hrp [0x74, 0x62]
      ++ (body ++ [c0, c1, c2, c3, c4, c5])) =
      List.foldl polymodStep
        (List.foldl polymodStep 1 (encode_hrp [0x74, 0x62] ++ body))
        [c0, c1, c2, c3, c4, c5] := by
    rw [polymod, ← List.append_assoc, List.foldl_append]
  have hzeros : polymod (encode_hrp [0x74, 0x62] ++ body
      ++ [0, 0, 0, 0, 0, 0]) =
      List.foldl polymodStep
        (List.foldl polymodStep 1 (encode_hrp [0x74, 0x62] ++ body))
        [0, 0, 0, 0, 0, 0] := by
    rw [polymod, List.foldl_append]
  have hpack := foldl_polymodStep_pack [c0, c1, c2, c3, c4, c5]
    (List.foldl polymodStep 1 (encode_hrp [0x74, 0x62] ++ body))
    hlt (by norm_num)
  have hrepl : List.replicate ([c0, c1, c2, c3, c4, c5].length) (0 : Nat) =
      [0, 0, 0, 0, 0, 0] := rfl
  rw [hrepl] at hpack
  have hpackval : pack5 [c0, c1, c2, c3, c4, c5] =
      c0 * 2 ^ 25 + c1 * 2 ^ 20 + c2 * 2 ^ 15 + c3 * 2 ^ 10 + c4 * 2 ^ 5
        + c5 := by
    simp only [pack5, List.length_cons, List.length_nil]
    norm_num
    ring
  rw [hsplit, hpack, hpackval] at h
  have hxz : ∀ Z D : Nat, Z ^^^ D = 1 → Z ^^^ 1 = D := by
    intro Z D hzd
    rw [← hzd, ← Nat.xor_assoc, Nat.xor_self, Nat.zero_xor]
  have hXZ : polymod (encode_hrp [0x74, 0x62] ++ body ++ [0, 0, 0, 0, 0, 0])
      ^^^ 1 = c0 * 2 ^ 25 + c1 * 2 ^ 20 + c2 * 2 ^ 15 + c3 * 2 ^ 10
        + c4 * 2 ^ 5 + c5 := by
    rw [hzeros]
    exact hxz _ _ h
  obtain ⟨e0, e1, e2, e3, e4, e5⟩ := extract5 c0 c1 c2 c3 c4 c5 h0 h1 h2 h3 h4 h5
  simp only [create_checksum, hXZ]
  have hr : List.range 6 = [0, 1, 2, 3, 4, 5] := rfl
  rw [hr]
  simp only [List.map_cons, List.map_nil, List.cons.injEq, and_true]
  exact ⟨e0, e1, e2, e3, e4, e5⟩

/-- C6 (amended): for every address that passes `from_address`'s own checks
in the lowercase branch — length 8..90, prefix `tb1`, data characters valid
and lowercase, polymod checksum 1, at least six data symbols — decoding
succeeds and re-encoding returns exactly the original address, which equals
its own lowercasing.  (Uppercase `TB1…` addresses with a BIP-173-valid,
i.e. lowercase-computed, checksum are instead rejected with
`InvalidChecksum`: the counterexample.) -/
theorem c6_bech32_lowercase_roundtrip (s db : List Nat)
    (h1 : 8 ≤ s.length) (h2 : s.length ≤ 90)
    (h3 : s.take 3 = [0x74, 0x62, 0x31])
    (h4 : validate_data (s.drop 3) true = .ok db)
    (h5 : polymod (encode_hrp [0x74, 0x62] ++ db) = 1)
    (h6 : 6 ≤ db.length) :
    Bech32.from_address s = .ok ⟨[0x74, 0x62], db.take (db.length - 6)⟩ ∧
    Bech32.to_address ⟨[0x74, 0x62], db.take (db.length - 6)⟩ = .ok s ∧
    toLowercase s = s := by
  have htake2 : s.take 2 = [0x74, 0x62] := by
    have hc := congrArg (List.take 2) h3
    rw [List.take_take] at hc
    norm_num at hc
    exact hc
  have hsplit : split_bech32 s = .ok ([0x74, 0x62], s.drop 3) := by
    unfold split_bech32
    rw [if_neg (by omega), if_neg (fun hC => hC (Or.inl h3)), htake2]
  have hbeq : (([0x74, 0x62] : List Nat) == [0x74, 0x62]) = true := by decide
  have hvcs : validate_checksum [0x74, 0x62] db = .ok () := by
    unfold validate_checksum
    rw [if_neg (by rw [h5]; exact fun hc => hc rfl)]
  obtain ⟨hall, hmap, hlowdata⟩ := validate_data_lower_facts (s.drop 3) db h4
  have hf : Bech32.from_address s =
      .ok ⟨[0x74, 0x62], db.take (db.length - 6)⟩ := by
    unfold Bech32.from_address
    rw [hsplit]
    simp only [hbeq, h4, hvcs, if_pos h6]
  have hbt : db.take (db.length - 6) ++ db.drop (db.length - 6) = db :=
    List.take_append_drop _ _
  have htl : (db.drop (db.length - 6)).length = 6 := by
    simp [List.length_drop]
    omega
  have htlt : ∀ c ∈ db.drop (db.length - 6), c < 32 :=
    fun c hc => hall c (List.drop_subset _ _ hc)
  have hcrt : create_checksum (db.take (db.length - 6)) =
      db.drop (db.length - 6) := by
    apply create_checksum_inverts _ _ htl htlt
    rw [hbt]
    exact h5
  have hs3 : [0x74, 0x62, 0x31] ++ s.drop 3 = s := by
    rw [← h3]
    exact List.take_append_drop 3 s
  have hdrop3 : (([0x74, 0x62, 0x31] : List Nat) ++ s.drop 3).drop 3 =
      s.drop 3 := by
    simp
  have ht : Bech32.to_address ⟨[0x74, 0x62], db.take (db.length - 6)⟩ =
      .ok s := by
    unfold Bech32.to_address
    simp only [hcrt, hbt, hmap, hdrop3, hbeq, h4, hvcs, hs3]
  have hlow : toLowercase s = s := by
    conv_lhs => rw [← List.take_append_drop 3 s, h3]
    simp only [toLowercase, List.map_append]
    have hpre : ([0x74, 0x62, 0x31] : List Nat).map
        (fun b => if 65 ≤ b ∧ b ≤ 90 then b + 32 else b) =
        [0x74, 0x62, 0x31] := by decide
    simp only [toLowercase] at hlowdata
    rw [hpre, hlowdata, hs3]
  exact ⟨hf, ht, hlow⟩

/-- The full decoded data of `addrC6lower` (33 payload symbols followed by
the 6 checksum symbols `kptww6`). -/
def dbC6 : List Nat :=
  [0, 30, 5, 8, 22, 27, 23, 9, 29, 14, 5, 16, 2, 22, 19, 7, 9, 27, 8,
   10, 10, 31, 31, 22, 6, 10, 16, 9, 23, 31, 6, 30, 4, 22, 1, 11, 14, 14, 26]

set_option maxHeartbeats 2000000 in
theorem c6_bech32_lowercase_roundtrip_witness :
    (8 ≤ addrC6lower.length ∧ addrC6lower.length ≤ 90 ∧
     addrC6lower.take 3 = [0x74, 0x62, 0x31] ∧
     validate_data (addrC6lower.drop 3) true = .ok dbC6 ∧
     polymod (encode_hrp [0x74, 0x62] ++ dbC6) = 1 ∧ 6 ≤ dbC6.length) ∧
    Bech32.from_address addrC6lower =
      .ok ⟨[0x74, 0x62], dbC6.take (dbC6.length - 6)⟩ ∧
    Bech32.to_address ⟨[0x74, 0x62], dbC6.take (dbC6.length - 6)⟩ =
      .ok addrC6lower ∧
    toLowercase addrC6lower = addrC6lower :=
  ⟨⟨by decide, by decide, by decide, by rfl, by decide, by decide⟩,
   c6_bech32_lowercase_roundtrip addrC6lower dbC6 (by decide) (by decide)
     (by decide) (by rfl) (by decide) (by decide)⟩
